import Mathlib

/-!
Verification of `src/outetts/version/v1/interface.py` (OuteTTS v1 interface).

Shallow embedding conventions:
* Python strings are Lean `String`s; `str.lower()` and `str.strip()` are
  modelled character-wise over `String.data` (`py_lower`, `py_strip`), which
  agrees with Python on the ASCII names and language codes involved.
* Python exceptions are modelled with `Except String` results; the error
  string is the `ValueError` message.
* Machine learning collaborators (tokenizer, backend model, audio codec) are
  parameters: `prepare` models `prepare_prompt`, `model` models
  `self.model.generate`, and the audio decoder is a function argument.
  Generation knobs (`temperature`, `repetition_penalty`,
  `additional_gen_config`) are opaque passthrough values folded into those
  function parameters, since no code in `interface.py` inspects them.
* Token id lists are `List Nat`; waveform tensors are `List Int`.
-/

namespace OuteTTS

/-- Embeds `HFModelConfig` (only the fields `interface.py` reads in the
verified paths). -/
structure HFModelConfig where
  max_seq_length : Nat := 4096

/-- Embeds `ModelOutput`: `audio` is `None` (here `Option.none`) when no
audio tokens were found; `sr` is the codec sample rate. -/
structure ModelOutput (Audio : Type) where
  audio : Option Audio
  sr : Nat
deriving DecidableEq, Repr

/-- Embeds `InterfaceHF.check_generation_max_length`: raises when
`max_length` is `None` or exceeds `config.max_seq_length`. -/
def check_generation_max_length (config : HFModelConfig) (max_length : Option Nat) :
    Except String Unit :=
  match max_length with
  | none => Except.error "max_length must be specified."
  | some m =>
      if m > config.max_seq_length then
        Except.error "Requested max_length exceeds the current max_seq_length."
      else
        Except.ok ()

/-- Modelled from the spec: `PromptProcessor.extract_audio_from_tokens`
(file `prompt_processor.py` is not under `src/`). Per the spec it scans the
sequence for the audio-token region delimited by reserved sentinel ids and
returns the enclosed subsequence verbatim, returning empty if no delimited
region is found.  `audio_start` and `audio_end` are the reserved sentinel
ids. -/
def extract_audio_from_tokens (audio_start audio_end : Nat) (tokens : List Nat) :
    List Nat :=
  if audio_start ∈ tokens then
    ((tokens.dropWhile (fun t => t ≠ audio_start)).drop 1).takeWhile
      (fun t => t ≠ audio_end)
  else
    []

/-- Embeds `InterfaceHF.get_audio`: extract the audio-token region; if it is
empty, log a warning and return `None`; otherwise decode it with the audio
codec (the codec is the parameter `decode`). -/
def get_audio (audio_start audio_end : Nat) (decode : List Nat → Audio)
    (tokens : List Nat) : Option Audio :=
  let output := extract_audio_from_tokens audio_start audio_end tokens
  if output.isEmpty then none
  else some (decode output)

/-- Embeds `InterfaceHF.generate`: builds the prompt, checks
`max_length`, invokes the backend model, and decodes the audio found after
the prompt (`output[input_ids.size()[-1]:]`).  `prepare` models
`prepare_prompt`, `model` models `self.model.generate`, `sr` is
`self.audio_codec.sr`. -/
def InterfaceHF.generate (config : HFModelConfig) (audio_start audio_end : Nat)
    (decode : List Nat → Audio) (sr : Nat) (prepare : String → List Nat)
    (model : List Nat → List Nat) (text : String) (max_length : Option Nat) :
    Except String (ModelOutput Audio) :=
  let input_ids := prepare text
  match check_generation_max_length config max_length with
  | Except.error e => Except.error e
  | Except.ok _ =>
      let output := model input_ids
      let audio := get_audio audio_start audio_end decode (output.drop input_ids.length)
      Except.ok { audio := audio, sr := sr }

/-- Embeds `InterfaceGGUF.generate`: identical to the HF variant except the
backend output is decoded whole (`self.get_audio(output)`, no prompt-length
drop). -/
def InterfaceGGUF.generate (config : HFModelConfig) (audio_start audio_end : Nat)
    (decode : List Nat → Audio) (sr : Nat) (prepare : String → List Nat)
    (model : List Nat → List Nat) (text : String) (max_length : Option Nat) :
    Except String (ModelOutput Audio) :=
  let input_ids := prepare text
  match check_generation_max_length config max_length with
  | Except.error e => Except.error e
  | Except.ok _ =>
      let output := model input_ids
      let audio := get_audio audio_start audio_end decode output
      Except.ok { audio := audio, sr := sr }

/-- Embeds `InterfaceEXL2.generate`: the prompt stays a string
(`prepare_prompt` returns the completion prompt directly) and the backend
consumes it; otherwise identical to the GGUF variant. -/
def InterfaceEXL2.generate (config : HFModelConfig) (audio_start audio_end : Nat)
    (decode : List Nat → Audio) (sr : Nat) (prepare : String → String)
    (model : String → List Nat) (text : String) (max_length : Option Nat) :
    Except String (ModelOutput Audio) :=
  let input_ids := prepare text
  match check_generation_max_length config max_length with
  | Except.error e => Except.error e
  | Except.ok _ =>
      let output := model input_ids
      let audio := get_audio audio_start audio_end decode output
      Except.ok { audio := audio, sr := sr }

/-- Models Python `str.lower()` on the `String` embedding (lowercasing each
character; the names and language codes in `interface.py` are ASCII, where
`Char.toLower` agrees with Python). -/
def py_lower (s : String) : String := ⟨s.data.map Char.toLower⟩

/-- Models Python `str.strip()`: removes leading and trailing whitespace. -/
def py_strip (s : String) : String :=
  ⟨List.rdropWhile Char.isWhitespace (s.data.dropWhile Char.isWhitespace)⟩

/-- The normalization `x.lower().strip()` applied by `load_default_speaker`
(to the speaker name and the current language) and by `change_language` (to
the requested language). -/
def py_normalize (s : String) : String := py_strip (py_lower s)

/-- Embeds `DEFAULT_SPEAKERS_DIR = os.path.join(BASE_DIR, "default_speakers")`.
`BASE_DIR` (the installed package directory) is a parameter of the model. -/
def DEFAULT_SPEAKERS_DIR (BASE_DIR : String) : String :=
  BASE_DIR ++ "/default_speakers"

/-- Embeds `get_speaker_path`. -/
def get_speaker_path (BASE_DIR speaker_name : String) : String :=
  DEFAULT_SPEAKERS_DIR BASE_DIR ++ "/" ++ speaker_name ++ ".json"

/-- Embeds the `_DEFAULT_SPEAKERS` catalog constant, as an association list
from language code to an association list from speaker name to profile
path. -/
def _DEFAULT_SPEAKERS (BASE_DIR : String) :
    List (String × List (String × String)) :=
  [("en",
    [("male_1", get_speaker_path BASE_DIR "en_male_1"),
     ("male_2", get_speaker_path BASE_DIR "en_male_2"),
     ("male_3", get_speaker_path BASE_DIR "en_male_3"),
     ("male_4", get_speaker_path BASE_DIR "en_male_4"),
     ("female_1", get_speaker_path BASE_DIR "en_female_1"),
     ("female_2", get_speaker_path BASE_DIR "en_female_2")]),
   ("ja",
    [("male_1", get_speaker_path BASE_DIR "ja_male_1"),
     ("female_1", get_speaker_path BASE_DIR "ja_female_1"),
     ("female_2", get_speaker_path BASE_DIR "ja_female_2"),
     ("female_3", get_speaker_path BASE_DIR "ja_female_3")]),
   ("ko",
    [("male_1", get_speaker_path BASE_DIR "ko_male_1"),
     ("male_2", get_speaker_path BASE_DIR "ko_male_2"),
     ("female_1", get_speaker_path BASE_DIR "ko_female_1"),
     ("female_2", get_speaker_path BASE_DIR "ko_female_2")]),
   ("zh",
    [("male_1", get_speaker_path BASE_DIR "zh_male_1"),
     ("female_1", get_speaker_path BASE_DIR "zh_female_1")])]

/-- Embeds `InterfaceHF.load_default_speaker`.  `language` is the stored
`self.language`; `load_file` models `self.load_speaker` (reading and parsing
the JSON file at the path). -/
def load_default_speaker (BASE_DIR : String) (load_file : String → α)
    (language name : String) : Except String α :=
  let name := py_normalize name
  let language := py_normalize language
  match (_DEFAULT_SPEAKERS BASE_DIR).lookup language with
  | none => Except.error ("Speaker for language " ++ language ++ " not found")
  | some speakers =>
      match speakers.lookup name with
      | none =>
          Except.error ("Speaker " ++ name ++ " not found for language " ++ language)
      | some path => Except.ok (load_file path)

/-- Embeds `InterfaceHF.change_language`: normalizes the requested language,
checks membership in `self.languages`, and returns the new stored
`self.language`. -/
def change_language (languages : List String) (language : String) :
    Except String String :=
  let language := py_normalize language
  if language ∈ languages then Except.ok language
  else Except.error ("Language " ++ language ++ " is not supported by the current model")

/-- Result of running the `generate_stream` generator to completion:
`outputs` collects the yielded `ModelOutput`s in order; `raised` records
whether an exception escaped the generator, which can only happen at the
final flush (`get_audio` on the final partial chunk sits outside any
`try`). -/
structure StreamResult (α : Type) where
  outputs : List α
  raised : Bool
deriving DecidableEq, Repr

/-- Embeds the token loop of `InterfaceGGUF.generate_stream` together with
the final flush.  `buf` is `generated_tokens`; each arriving token is
appended; whenever the buffer length is a multiple of `chunk_size` the
accumulated buffer is decoded and yielded, and only on success is the
buffer cleared (`generated_tokens = []` sits after the `yield` inside the
`try`, so a decode failure keeps the buffer); at end of stream a non-empty
buffer is decoded and yielded outside any `try`.  `gaudio` models
`self.get_audio` (`Except.error` models a raised exception; the inner
`Option` is the `None`-audio case), `sr` is `self.audio_codec.sr`. -/
def generate_stream_loop (sr chunk_size : Nat)
    (gaudio : List Nat → Except Unit (Option Audio)) :
    List Nat → List Nat → StreamResult (ModelOutput Audio)
  | buf, [] =>
      if buf.isEmpty then ⟨[], false⟩
      else
        match gaudio buf with
        | Except.ok a => ⟨[⟨a, sr⟩], false⟩
        | Except.error _ => ⟨[], true⟩
  | buf, token :: rest =>
      let buf2 := buf ++ [token]
      if buf2.length % chunk_size = 0 then
        match gaudio buf2 with
        | Except.ok a =>
            let r := generate_stream_loop sr chunk_size gaudio [] rest
            ⟨⟨a, sr⟩ :: r.outputs, r.raised⟩
        | Except.error _ => generate_stream_loop sr chunk_size gaudio buf2 rest
      else
        generate_stream_loop sr chunk_size gaudio buf2 rest

/-- Embeds `InterfaceGGUF.generate_stream`: prompt preparation, max-length
check, then the streaming token loop.  `model_stream` models
`self.model.generate_stream` (the finite token stream it emits for the
given prompt). -/
def InterfaceGGUF.generate_stream (config : HFModelConfig) (sr : Nat)
    (gaudio : List Nat → Except Unit (Option Audio))
    (prepare : String → List Nat) (model_stream : List Nat → List Nat)
    (text : String) (max_length : Option Nat) (chunk_size : Nat) :
    Except String (StreamResult (ModelOutput Audio)) :=
  let input_ids := prepare text
  match check_generation_max_length config max_length with
  | Except.error e => Except.error e
  | Except.ok _ =>
      Except.ok (generate_stream_loop sr chunk_size gaudio [] (model_stream input_ids))

/-- Splits a list into consecutive chunks of size `c` (the final chunk may
be shorter); the reference decomposition used to state what the stream
loop yields. -/
def chunk_split (c : Nat) : List Nat → List (List Nat)
  | [] => []
  | x :: xs => (x :: xs.take (c - 1)) :: chunk_split c (xs.drop (c - 1))
termination_by l => l.length
decreasing_by simp; omega

/-- One aligned word as returned by `CTCForcedAlignment.align` (an external
collaborator): the word text, its waveform slice (`i["audio"]`), and its end
boundary in samples (`i["x1"]`). -/
structure AlignedWord where
  word : String
  audio : List Int
  x1 : Nat
deriving DecidableEq, Repr

/-- One `WordEntry` of a speaker profile as built by `create_speaker`.
Durations are Python floats; they are modelled as exact rationals. -/
structure WordEntry where
  word : String
  duration : ℚ
  codes : List Nat
deriving DecidableEq, Repr

/-- A speaker profile as returned by `create_speaker`: the dict
`{"text": ..., "words": ..., "language": ...}`. -/
structure SpeakerProfile where
  text : String
  words : List WordEntry
  language : String
deriving DecidableEq, Repr

/-- Models Python's built-in `round` on an exact rational value: round half
to even (banker's rounding), as Python does. -/
def py_round (q : ℚ) : ℤ :=
  if q - ⌊q⌋ < 1 / 2 then ⌊q⌋
  else if 1 / 2 < q - ⌊q⌋ then ⌊q⌋ + 1
  else if ⌊q⌋ % 2 = 0 then ⌊q⌋ else ⌊q⌋ + 1

/-- Models Python `round(x, 2)` on an exact rational value: round to two
decimal places. -/
def py_round2 (q : ℚ) : ℚ := (py_round (q * 100) : ℚ) / 100

/-- Embeds `end = int(round((i["x1"] / ctc.sample_rate) * 75))`: the word's
end boundary converted from samples to the 75 tokens/second codec rate. -/
def word_end_index (sample_rate x1 : Nat) : Nat :=
  (py_round (((x1 : ℚ) / (sample_rate : ℚ)) * 75)).toNat

/-- Embeds the per-word loop of `create_speaker`: walks the aligned words
keeping the running token index `start`; each word takes the slice
`full_codes[start:end]` of the full encoding (`end` from `word_end_index`),
`start` becomes `end`, an empty slice is replaced by the placeholder `[1]`,
and the entry records the word, its duration `round(len(codes)/75, 2)`, and
the codes. -/
def build_word_entries (full_codes : List Nat) (sample_rate : Nat) :
    Nat → List AlignedWord → List WordEntry
  | _, [] => []
  | start, w :: ws =>
      let e := word_end_index sample_rate w.x1
      let sliced := (full_codes.drop start).take (e - start)
      let word_tokens := if sliced = [] then [1] else sliced
      { word := w.word,
        duration := py_round2 ((word_tokens.length : ℚ) / 75),
        codes := word_tokens } :: build_word_entries full_codes sample_rate e ws

/-- Embeds `InterfaceHF.create_speaker` (transcript supplied, so the
whisper fallback is not taken): raises on an empty transcript, otherwise
encodes the concatenation of the aligned words' audio once
(`torch.cat([i["audio"] for i in words], dim=1)`) and assembles the
profile.  `encode` models
`audio_codec.encode(audio_codec.convert_audio_tensor(...)).tolist()[0][0]`
(the batch and channel indices collapsed); `sample_rate` is
`ctc.sample_rate`; `language` is `self.language`; the alignment engine and
its `free()` are external. -/
def create_speaker (encode : List Int → List Nat) (sample_rate : Nat)
    (language transcript : String) (words : List AlignedWord) :
    Except String SpeakerProfile :=
  if transcript = "" then Except.error "Transcript text is empty"
  else
    let full_codes := encode ((words.map (fun w => w.audio)).flatten)
    Except.ok { text := transcript,
                words := build_word_entries full_codes sample_rate 0 words,
                language := language }

/-- The reference coverage condition for exact reconstruction: starting
from token index `start`, each word's computed end boundary strictly
increases, stays within the encoding, and the last boundary lands exactly
on the end of the encoding. -/
def covers_from (full_codes : List Nat) (sample_rate : Nat) :
    Nat → List AlignedWord → Bool
  | start, [] => start == full_codes.length
  | start, w :: ws =>
      decide (start < word_end_index sample_rate w.x1)
      && decide (word_end_index sample_rate w.x1 ≤ full_codes.length)
      && covers_from full_codes sample_rate (word_end_index sample_rate w.x1) ws

/-!
JSON persistence (`save_speaker` / `load_speaker`).  `json.dump(speaker, f,
indent=2)` and `json.load(f)` are modelled by an executable renderer and
parser over the value domain that speaker profiles inhabit: strings,
non-negative integers, non-negative decimal fractions (Python floats
arising from `round(_, 2)`, modelled as exact rationals), arrays, and
string-keyed objects.  The file system is a partial map from path to file
content.
-/

/-- A JSON value of the shape speaker profiles serialize to (`null` and
booleans never occur in profiles and are omitted). -/
inductive Json where
  | str (s : String)
  | int (n : Nat)
  | dec (q : ℚ)
  | arr (elems : List Json)
  | obj (fields : List (String × Json))

/-- The double-quote character, `'"'`. -/
def quoteChar : Char := Char.ofNat 34

/-- The decimal digit character for `d` (`0 ≤ d ≤ 9`). -/
def digit_char (d : Nat) : Char := Char.ofNat (48 + d)

/-- The numeric value of a decimal digit character. -/
def digit_val (c : Char) : Nat := c.toNat - 48

/-- The reversed decimal digit characters of a positive natural. -/
def nat_digits_rev : Nat → List Char
  | 0 => []
  | n + 1 => digit_char ((n + 1) % 10) :: nat_digits_rev ((n + 1) / 10)
decreasing_by exact Nat.div_lt_self (Nat.succ_pos n) (by omega)

/-- Python `repr` of a natural number. -/
def nat_repr (n : Nat) : List Char :=
  if n = 0 then [digit_char 0] else (nat_digits_rev n).reverse

/-- The natural number denoted by a list of decimal digit characters. -/
def nat_of_digits (ds : List Char) : Nat :=
  ds.foldl (fun acc c => acc * 10 + digit_val c) 0

/-- Python `repr` of the float `round(x, 2)` whose exact value is the
non-negative rational `q` with `q * 100` integral: the shortest decimal
form, always keeping at least one digit after the point (`1.0`, `0.6`,
`0.27`). -/
def dec_repr (q : ℚ) : List Char :=
  let t := (q * 100).num.toNat
  let ip := t / 100
  let h := t % 100
  if h = 0 then nat_repr ip ++ ('.' :: [digit_char 0])
  else if h % 10 = 0 then nat_repr ip ++ ('.' :: nat_repr (h / 10))
  else if h < 10 then nat_repr ip ++ ('.' :: digit_char 0 :: nat_repr h)
  else nat_repr ip ++ ('.' :: nat_repr h)

/-- The opening-brace character. -/
def lbraceChar : Char := Char.ofNat 123

/-- The closing-brace character. -/
def rbraceChar : Char := Char.ofNat 125

/-- JSON string escaping as `json.dump` performs it for the basic escape
characters (profile strings are restricted to characters needing no escape,
where this is the identity). -/
def escape_char (c : Char) : List Char :=
  if c = quoteChar then ['\\', quoteChar]
  else if c = '\\' then ['\\', '\\']
  else if c = '\n' then ['\\', 'n']
  else if c = '\t' then ['\\', 't']
  else if c = '\r' then ['\\', 'r']
  else [c]

/-- Escapes every character of a string. -/
def escape_string (s : String) : List Char := (s.data.map escape_char).flatten

/-- A rendered JSON string literal. -/
def str_repr (s : String) : List Char :=
  quoteChar :: (escape_string s ++ [quoteChar])

/-- The `indent=2` indentation prefix at nesting `level`. -/
def indent_chars (level : Nat) : List Char := List.replicate (2 * level) ' '

mutual

/-- Renders a JSON value as `json.dump(..., indent=2)` does, at nesting
`level`: non-empty containers spread over lines, each inner line indented
two more spaces, keys separated from values by `": "`, items by `",\n"`. -/
def render_json : Json → Nat → List Char
  | Json.str s, _ => str_repr s
  | Json.int n, _ => nat_repr n
  | Json.dec q, _ => dec_repr q
  | Json.arr [], _ => ['[', ']']
  | Json.arr (x :: xs), level =>
      '[' :: '\n' :: (indent_chars (level + 1)
        ++ render_json x (level + 1)
        ++ render_arr_items xs (level + 1)
        ++ '\n' :: (indent_chars level ++ [']']))
  | Json.obj [], _ => [lbraceChar, rbraceChar]
  | Json.obj (f :: fs), level =>
      lbraceChar :: '\n' :: (indent_chars (level + 1)
        ++ render_field f (level + 1)
        ++ render_obj_fields fs (level + 1)
        ++ '\n' :: (indent_chars level ++ [rbraceChar]))

/-- Renders one `"key": value` member. -/
def render_field : String × Json → Nat → List Char
  | (k, v), level => str_repr k ++ ':' :: ' ' :: render_json v level

/-- Renders the remaining array items, each preceded by `",\n"` and
indentation. -/
def render_arr_items : List Json → Nat → List Char
  | [], _ => []
  | x :: xs, level =>
      ',' :: '\n' :: (indent_chars level ++ render_json x level
        ++ render_arr_items xs level)

/-- Renders the remaining object members, each preceded by `",\n"` and
indentation. -/
def render_obj_fields : List (String × Json) → Nat → List Char
  | [], _ => []
  | f :: fs, level =>
      ',' :: '\n' :: (indent_chars level ++ render_field f level
        ++ render_obj_fields fs level)

end

/-- The JSON value of one `WordEntry`, with the key order of
`create_speaker`. -/
def word_entry_to_json (e : WordEntry) : Json :=
  Json.obj [("word", Json.str e.word), ("duration", Json.dec e.duration),
    ("codes", Json.arr (e.codes.map Json.int))]

/-- The JSON value of a speaker profile, with the key order of
`create_speaker`: `text`, `words`, `language`. -/
def profile_to_json (p : SpeakerProfile) : Json :=
  Json.obj [("text", Json.str p.text),
    ("words", Json.arr (p.words.map word_entry_to_json)),
    ("language", Json.str p.language)]

/-- A file system: a partial map from path to file content. -/
def FileSystem : Type := String → Option String

/-- Embeds `InterfaceHF.save_speaker`: opens `path` for writing and stores
`json.dump(speaker, f, indent=2)`. -/
def save_speaker (fs : FileSystem) (speaker : SpeakerProfile) (path : String) :
    FileSystem :=
  fun q => if q = path then some ⟨render_json (profile_to_json speaker) 0⟩ else fs q

/-- Skips JSON whitespace (space, tab, carriage return, newline). -/
def skip_ws (cs : List Char) : List Char := cs.dropWhile Char.isWhitespace

/-- Parses the remainder of a JSON string literal (after the opening
quote), unescaping the basic escapes; returns the string's characters and
the input after the closing quote. -/
def parse_string_chars : List Char → Option (List Char × List Char)
  | [] => none
  | c :: rest =>
      if c = quoteChar then some ([], rest)
      else if c = '\\' then
        match rest with
        | [] => none
        | e :: rest2 =>
            let u := if e = 'n' then '\n'
              else if e = 't' then '\t'
              else if e = 'r' then '\r'
              else e
            match parse_string_chars rest2 with
            | none => none
            | some (s, r) => some (u :: s, r)
      else
        match parse_string_chars rest with
        | none => none
        | some (s, r) => some (c :: s, r)

/-- Parses a JSON number: decimal digits, optionally a point and fraction
digits; an integer literal yields `Json.int`, a fraction `Json.dec`. -/
def parse_number (cs : List Char) : Option (Json × List Char) :=
  let ds := cs.takeWhile Char.isDigit
  let rest := cs.dropWhile Char.isDigit
  if ds = [] then none
  else
    match rest with
    | '.' :: rest2 =>
        let fracs := rest2.takeWhile Char.isDigit
        let rest3 := rest2.dropWhile Char.isDigit
        if fracs = [] then none
        else some (Json.dec ((nat_of_digits ds : ℚ)
          + (nat_of_digits fracs : ℚ) / (10 : ℚ) ^ fracs.length), rest3)
    | _ => some (Json.int (nat_of_digits ds), rest)

mutual

/-- Recursive-descent JSON parser modelling `json.load`, with a fuel bound
on recursion depth; returns the parsed value and the unconsumed input.
It is lenient about a trailing comma inside containers, which rendered
output never contains. -/
def parse_value : Nat → List Char → Option (Json × List Char)
  | 0, _ => none
  | fuel + 1, cs =>
      match skip_ws cs with
      | [] => none
      | c :: rest =>
          if c = quoteChar then
            match parse_string_chars rest with
            | none => none
            | some (s, r) => some (Json.str ⟨s⟩, r)
          else if c = '[' then
            match parse_arr_items fuel rest with
            | none => none
            | some (xs, r) => some (Json.arr xs, r)
          else if c = lbraceChar then
            match parse_obj_fields fuel rest with
            | none => none
            | some (fields, r) => some (Json.obj fields, r)
          else parse_number (c :: rest)

/-- Parses the items of an array after its `[`. -/
def parse_arr_items : Nat → List Char → Option (List Json × List Char)
  | 0, _ => none
  | fuel + 1, cs =>
      match skip_ws cs with
      | [] => none
      | c :: rest =>
          if c = ']' then some ([], rest)
          else
            match parse_value fuel (c :: rest) with
            | none => none
            | some (x, r) =>
                match skip_ws r with
                | [] => none
                | c2 :: rest2 =>
                    if c2 = ',' then
                      match parse_arr_items fuel rest2 with
                      | none => none
                      | some (xs, r2) => some (x :: xs, r2)
                    else if c2 = ']' then some ([x], rest2)
                    else none

/-- Parses the members of an object after its opening brace. -/
def parse_obj_fields : Nat → List Char →
    Option (List (String × Json) × List Char)
  | 0, _ => none
  | fuel + 1, cs =>
      match skip_ws cs with
      | [] => none
      | c :: rest =>
          if c = rbraceChar then some ([], rest)
          else if c = quoteChar then
            match parse_string_chars rest with
            | none => none
            | some (k, r) =>
                match skip_ws r with
                | [] => none
                | c2 :: rest2 =>
                    if c2 = ':' then
                      match parse_value fuel rest2 with
                      | none => none
                      | some (v, r2) =>
                          match skip_ws r2 with
                          | [] => none
                          | c3 :: rest3 =>
                              if c3 = ',' then
                                match parse_obj_fields fuel rest3 with
                                | none => none
                                | some (fields, r3) =>
                                    some ((⟨k⟩, v) :: fields, r3)
                              else if c3 = rbraceChar then
                                some ([(⟨k⟩, v)], rest3)
                              else none
                    else none
          else none

end

/-- Models `json.load`: parse the whole file content, rejecting trailing
garbage; the fuel `length + 1` bounds the recursion depth, which input
consumption keeps below it. -/
def json_load (s : String) : Option Json :=
  match parse_value (s.length + 1) s.data with
  | none => none
  | some (j, rest) => if skip_ws rest = [] then some j else none

/-- Embeds `InterfaceHF.load_speaker`: opens `path` for reading and parses
it with `json.load` (a missing file or malformed content is an error,
modelled as `none`). -/
def load_speaker (fs : FileSystem) (path : String) : Option Json :=
  match fs path with
  | none => none
  | some content => json_load content

/-- A profile string character that `json.dump` emits verbatim: printable
ASCII, not the quote, not the backslash (everything else would be escaped,
control and non-ASCII characters as `\\u` sequences the model omits). -/
def wf_char (c : Char) : Bool :=
  decide (32 ≤ c.toNat) && decide (c.toNat ≤ 126)
    && !(decide (c = quoteChar)) && !(decide (c = '\\'))

/-- A string that serializes verbatim. -/
def wf_string (s : String) : Bool := s.data.all wf_char

/-- A duration value that serializes as a two-decimal literal: non-negative
with denominator dividing 100 (every value `round(len/75, 2)` produces is of
this form). -/
def wf_dec (q : ℚ) : Bool := decide (0 ≤ q) && ((q * 100).den == 1)

/-- A `WordEntry` in the serializable domain. -/
def wf_word_entry (e : WordEntry) : Bool := wf_string e.word && wf_dec e.duration

/-- A profile in the serializable domain (the formalization of the claim's
"JSON-serializable record"). -/
def wf_profile (p : SpeakerProfile) : Bool :=
  wf_string p.text && wf_string p.language && p.words.all wf_word_entry

/-- When `max_length` is `None` or exceeds the ceiling, the check raises. -/
theorem check_generation_max_length_fails (config : HFModelConfig)
    (max_length : Option Nat)
    (h : max_length = none ∨ ∃ m, max_length = some m ∧ config.max_seq_length < m) :
    ∃ err, check_generation_max_length config max_length = Except.error err := by
  rcases h with h | ⟨m, hm, hlt⟩
  · exact ⟨"max_length must be specified.", by simp [h, check_generation_max_length]⟩
  · exact ⟨"Requested max_length exceeds the current max_seq_length.",
      by simp [hm, check_generation_max_length, hlt]⟩

/-- When `max_length` is within the ceiling, the check passes. -/
theorem check_generation_max_length_ok (config : HFModelConfig) (m : Nat)
    (hm : m ≤ config.max_seq_length) :
    check_generation_max_length config (some m) = Except.ok () := by
  simp [check_generation_max_length, Nat.not_lt.mpr hm]

/-- A chunk shorter than (or equal to) the chunk size is emitted whole. -/
theorem chunk_split_small (c : Nat) (l : List Nat) (h0 : l ≠ [])
    (hle : l.length ≤ c) : chunk_split c l = [l] := by
  cases l with
  | nil => exact absurd rfl h0
  | cons x xs =>
      have hxs : xs.length ≤ c - 1 := by simp at hle; omega
      rw [chunk_split, List.take_of_length_le hxs, List.drop_eq_nil_of_le hxs,
        chunk_split]

/-- Peeling a full chunk off the front of the decomposition. -/
theorem chunk_split_append (c : Nat) (hc : 0 < c) (l rest : List Nat)
    (hl : l.length = c) : chunk_split c (l ++ rest) = l :: chunk_split c rest := by
  cases l with
  | nil => simp at hl; omega
  | cons x xs =>
      have hxs : xs.length = c - 1 := by simp at hl; omega
      rw [List.cons_append, chunk_split]
      congr 1
      · rw [← hxs, List.take_left]
      · rw [← hxs, List.drop_left]

/-- Splitting a list longer than the chunk size takes a full first chunk. -/
theorem chunk_split_take_drop (c : Nat) (hc : 0 < c) (l : List Nat)
    (hlt : c ≤ l.length) :
    chunk_split c l = l.take c :: chunk_split c (l.drop c) := by
  rw [← List.take_append_drop c l, chunk_split_append c hc _ _ (by
    rw [List.length_take]; omega)]
  rw [List.take_append_drop]

/-- When the decoder never fails, the stream loop yields exactly the
`chunk_split` decomposition of the buffered-plus-arriving tokens, each
decoded, and no exception escapes. -/
theorem generate_stream_loop_ok (Audio : Type) (sr c : Nat) (hc : 0 < c)
    (g : List Nat → Option Audio) (ts : List Nat) :
    ∀ buf : List Nat, buf.length < c →
      generate_stream_loop sr c (fun l => Except.ok (g l)) buf ts
        = ⟨(chunk_split c (buf ++ ts)).map (fun l => ⟨g l, sr⟩), false⟩ := by
  induction ts with
  | nil =>
      intro buf hbuf
      rw [generate_stream_loop]
      by_cases hb : buf.isEmpty
      · rw [List.isEmpty_iff] at hb
        simp [hb, chunk_split]
      · have hb2 : buf ≠ [] := by
          intro habs
          rw [habs] at hb
          exact hb rfl
        rw [if_neg hb, List.append_nil,
          chunk_split_small c buf hb2 (Nat.le_of_lt hbuf)]
        rfl
  | cons t rest ih =>
      intro buf hbuf
      rw [generate_stream_loop]
      by_cases hfl : (buf ++ [t]).length % c = 0
      · have hlb : (buf ++ [t]).length = buf.length + 1 := by simp
        have hlen : (buf ++ [t]).length = c := by
          rcases Nat.lt_or_ge (buf ++ [t]).length c with hlt | hge
          · rw [Nat.mod_eq_of_lt hlt] at hfl
            omega
          · omega
        have hrec := ih [] (by simpa using hc)
        have hchunk : chunk_split c (buf ++ t :: rest)
            = (buf ++ [t]) :: chunk_split c rest := by
          rw [show buf ++ t :: rest = (buf ++ [t]) ++ rest by simp,
            chunk_split_append c hc _ _ hlen]
        rw [if_pos hfl]
        simp only [hrec, hchunk, List.map_cons, List.nil_append]
      · have hlb : (buf ++ [t]).length = buf.length + 1 := by simp
        have h2 : (buf ++ [t]).length < c := by
          rcases Nat.lt_or_ge (buf ++ [t]).length c with hlt | hge
          · exact hlt
          · have he : (buf ++ [t]).length = c := by omega
            rw [he, Nat.mod_self] at hfl
            exact absurd rfl hfl
        rw [if_neg hfl, ih (buf ++ [t]) h2,
          show (buf ++ [t]) ++ rest = buf ++ t :: rest by simp]

/-- With an identity decoder, every buffered token reaches the yielded
outputs when no exception escapes the final flush: a failed chunk's tokens
stay in the buffer and are re-included in the next decode attempt, so
nothing is discarded. -/
theorem generate_stream_loop_conserves (sr c : Nat) (fail : List Nat → Bool)
    (ts : List Nat) :
    ∀ buf : List Nat,
      (generate_stream_loop sr c
          (fun l => if fail l then Except.error () else Except.ok (some l))
          buf ts).raised = false →
      ((generate_stream_loop sr c
          (fun l => if fail l then Except.error () else Except.ok (some l))
          buf ts).outputs.map (fun o => o.audio.getD [])).flatten = buf ++ ts := by
  induction ts with
  | nil =>
      intro buf hr
      rw [generate_stream_loop] at hr ⊢
      by_cases hb : buf.isEmpty
      · rw [List.isEmpty_iff] at hb
        simp [hb]
      · rw [if_neg hb] at hr ⊢
        cases hfail : fail buf with
        | true => simp [hfail] at hr
        | false => simp [hfail]
  | cons t rest ih =>
      intro buf hr
      rw [generate_stream_loop] at hr ⊢
      by_cases hfl : (buf ++ [t]).length % c = 0
      · rw [if_pos hfl] at hr ⊢
        cases hfail : fail (buf ++ [t]) with
        | true =>
            simp only [hfail, if_true, Bool.true_eq_false, reduceIte] at hr ⊢
            rw [ih (buf ++ [t]) hr]
            simp
        | false =>
            simp only [hfail, Bool.false_eq_true, reduceIte] at hr ⊢
            simp only [List.map_cons, List.flatten_cons]
            rw [ih [] hr]
            simp
      · rw [if_neg hfl] at hr ⊢
        rw [ih (buf ++ [t]) hr]
        simp

/-- Python's `round` lands within half a unit of its argument. -/
theorem py_round_abs (q : ℚ) : |(py_round q : ℚ) - q| ≤ 1 / 2 := by
  have h1 : (⌊q⌋ : ℚ) ≤ q := Int.floor_le q
  have h2 : q < ⌊q⌋ + 1 := Int.lt_floor_add_one q
  unfold py_round
  split
  case isTrue h =>
    rw [abs_sub_comm, abs_of_nonneg (by linarith)]
    linarith
  case isFalse h =>
    split
    case isTrue h3 =>
      push_cast
      rw [abs_of_nonneg (by linarith)]
      linarith
    case isFalse h3 =>
      have heq : q - ⌊q⌋ = 1 / 2 := by
        rcases lt_trichotomy (q - ⌊q⌋) (1 / 2) with hlt | heq | hgt
        · exact absurd hlt h
        · exact heq
        · exact absurd hgt h3
      split
      case isTrue h4 =>
        rw [abs_sub_comm, abs_of_nonneg (by linarith)]
        linarith
      case isFalse h4 =>
        push_cast
        rw [abs_of_nonneg (by linarith)]
        linarith

/-- `round(x, 2)` lands within half a hundredth of its argument. -/
theorem py_round2_abs (q : ℚ) : |py_round2 q - q| ≤ 1 / 200 := by
  have h2 : |(py_round (q * 100) : ℚ) - q * 100| ≤ 1 / 2 := py_round_abs (q * 100)
  unfold py_round2
  calc |(py_round (q * 100) : ℚ) / 100 - q|
      = |(py_round (q * 100) : ℚ) - q * 100| / 100 := by
        rw [show (py_round (q * 100) : ℚ) / 100 - q
          = ((py_round (q * 100) : ℚ) - q * 100) / 100 by ring, abs_div]
        norm_num
    _ ≤ (1 / 2) / 100 := by
        exact (div_le_div_iff_of_pos_right (by norm_num)).mpr h2
    _ = 1 / 200 := by norm_num

/-- Every entry built by the `create_speaker` loop has non-empty codes:
an empty slice is replaced by the placeholder `[1]`. -/
theorem build_word_entries_codes_ne_nil (full : List Nat) (sr : Nat)
    (ws : List AlignedWord) :
    ∀ (start : Nat) (e : WordEntry),
      e ∈ build_word_entries full sr start ws → e.codes ≠ [] := by
  induction ws with
  | nil =>
      intro start e he
      simp [build_word_entries] at he
  | cons w ws ih =>
      intro start e he
      simp only [build_word_entries, List.mem_cons] at he
      rcases he with h | h
      · subst h
        by_cases hs : (full.drop start).take (word_end_index sr w.x1 - start) = []
        · simp [hs]
        · simp [hs]
      · exact ih _ e h

/-- Every entry built by the `create_speaker` loop records the duration
`round(len(codes)/75, 2)` of its own codes. -/
theorem build_word_entries_duration_eq (full : List Nat) (sr : Nat)
    (ws : List AlignedWord) :
    ∀ (start : Nat) (e : WordEntry),
      e ∈ build_word_entries full sr start ws →
      e.duration = py_round2 ((e.codes.length : ℚ) / 75) := by
  induction ws with
  | nil =>
      intro start e he
      simp [build_word_entries] at he
  | cons w ws ih =>
      intro start e he
      simp only [build_word_entries, List.mem_cons] at he
      rcases he with h | h
      · subst h
        rfl
      · exact ih _ e h

/-- The `create_speaker` loop emits one entry per aligned word, in order,
carrying the same word text. -/
theorem build_word_entries_map_word (full : List Nat) (sr : Nat)
    (ws : List AlignedWord) :
    ∀ start : Nat,
      (build_word_entries full sr start ws).map (fun e => e.word)
        = ws.map (fun w => w.word) := by
  induction ws with
  | nil => intro start; rfl
  | cons w ws ih =>
      intro start
      simp only [build_word_entries, List.map_cons]
      rw [ih _]

/-- Under the coverage condition, the concatenated codes of the entries
built from token index `start` reconstruct exactly `full.drop start`. -/
theorem build_word_entries_flatten (full : List Nat) (sr : Nat)
    (ws : List AlignedWord) :
    ∀ start : Nat,
      covers_from full sr start ws = true →
      ((build_word_entries full sr start ws).map (fun e => e.codes)).flatten
        = full.drop start := by
  induction ws with
  | nil =>
      intro start hc
      simp only [covers_from, beq_iff_eq] at hc
      simp [build_word_entries, hc, List.drop_length]
  | cons w ws ih =>
      intro start hc
      simp only [covers_from, Bool.and_eq_true, decide_eq_true_eq] at hc
      obtain ⟨⟨h1, h2⟩, h3⟩ := hc
      have hne : (full.drop start).take (word_end_index sr w.x1 - start) ≠ [] := by
        intro habs
        have hlen := congrArg List.length habs
        rw [List.length_take, List.length_drop] at hlen
        simp at hlen
        omega
      simp only [build_word_entries, List.map_cons, List.flatten_cons]
      rw [if_neg hne, ih _ h3]
      have hdd : full.drop (word_end_index sr w.x1)
          = (full.drop start).drop (word_end_index sr w.x1 - start) := by
        rw [List.drop_drop]
        congr 1
        omega
      rw [hdd, List.take_append_drop]

/-- A decimal digit character is recognized by `Char.isDigit`. -/
theorem digit_char_isDigit (d : Nat) (h : d < 10) :
    (digit_char d).isDigit = true := by
  interval_cases d <;> decide

/-- `digit_val` inverts `digit_char` on digits. -/
theorem digit_val_digit_char (d : Nat) (h : d < 10) :
    digit_val (digit_char d) = d := by
  interval_cases d <;> decide

/-- All characters of `nat_digits_rev n` are digits. -/
theorem nat_digits_rev_all_digits (n : Nat) :
    ∀ c ∈ nat_digits_rev n, c.isDigit = true := by
  induction n using Nat.strong_induction_on with
  | _ n ih =>
      match n with
      | 0 =>
          intro c hc
          simp [nat_digits_rev] at hc
      | m + 1 =>
          intro c hc
          rw [nat_digits_rev] at hc
          rcases List.mem_cons.mp hc with h | h
          · subst h
            exact digit_char_isDigit _ (Nat.mod_lt _ (by omega))
          · exact ih ((m + 1) / 10) (Nat.div_lt_self (Nat.succ_pos m) (by omega)) c h

/-- All characters of `nat_repr n` are digits. -/
theorem nat_repr_all_digits (n : Nat) :
    ∀ c ∈ nat_repr n, c.isDigit = true := by
  intro c hc
  unfold nat_repr at hc
  split at hc
  · simp at hc
    subst hc
    decide
  · exact nat_digits_rev_all_digits n c (List.mem_reverse.mp hc)

/-- `nat_repr` is never empty. -/
theorem nat_repr_ne_nil (n : Nat) : nat_repr n ≠ [] := by
  unfold nat_repr
  split
  · simp
  · intro habs
    rw [List.reverse_eq_nil_iff] at habs
    rename_i hn
    match n, hn with
    | m + 1, _ => rw [nat_digits_rev] at habs; cases habs

/-- Appending one digit multiplies the value by ten and adds the digit. -/
theorem nat_of_digits_snoc (ds : List Char) (c : Char) :
    nat_of_digits (ds ++ [c]) = nat_of_digits ds * 10 + digit_val c := by
  simp [nat_of_digits, List.foldl_append]

/-- `nat_of_digits` inverts `nat_digits_rev`. -/
theorem nat_of_digits_rev (n : Nat) :
    nat_of_digits ((nat_digits_rev n).reverse) = n := by
  induction n using Nat.strong_induction_on with
  | _ n ih =>
      match n with
      | 0 => rw [nat_digits_rev]; rfl
      | m + 1 =>
          rw [nat_digits_rev, List.reverse_cons, nat_of_digits_snoc,
            ih ((m + 1) / 10) (Nat.div_lt_self (Nat.succ_pos m) (by omega)),
            digit_val_digit_char _ (Nat.mod_lt _ (by omega))]
          omega

/-- `nat_of_digits` inverts `nat_repr`. -/
theorem nat_of_digits_repr (n : Nat) : nat_of_digits (nat_repr n) = n := by
  unfold nat_repr
  split
  · rename_i h
    subst h
    rfl
  · exact nat_of_digits_rev n

/-- A leading zero digit does not change the denoted value. -/
theorem nat_of_digits_zero_cons (ds : List Char) :
    nat_of_digits (digit_char 0 :: ds) = nat_of_digits ds := by
  simp [nat_of_digits, digit_val, digit_char]

/-- Splitting `takeWhile`/`dropWhile` at a known boundary. -/
theorem takeWhile_append_all (p : Char → Bool) (ds rest : List Char)
    (hds : ∀ c ∈ ds, p c = true)
    (hrest : ∀ c, rest.head? = some c → p c = false) :
    (ds ++ rest).takeWhile p = ds ∧ (ds ++ rest).dropWhile p = rest := by
  induction ds with
  | nil =>
      simp only [List.nil_append]
      cases rest with
      | nil => simp
      | cons c r =>
          have hc := hrest c rfl
          simp [List.takeWhile_cons, List.dropWhile_cons, hc]
  | cons d ds ih =>
      have hd := hds d (List.mem_cons_self _ _)
      have ih2 := ih (fun c hc => hds c (List.mem_cons_of_mem _ hc))
      simp [List.takeWhile_cons, List.dropWhile_cons, hd, ih2.1, ih2.2]

/-- A digit character is not whitespace. -/
theorem digit_not_ws (c : Char) (h : c.isDigit = true) :
    c.isWhitespace = false := by
  by_contra hw
  have hw2 : c.isWhitespace = true := by
    revert hw
    cases c.isWhitespace <;> simp
  simp only [Char.isWhitespace, Bool.or_eq_true, decide_eq_true_eq] at hw2
  rcases hw2 with ((h1 | h1) | h1) | h1 <;> subst h1 <;> exact absurd h (by decide)

/-- A digit character differs from any non-digit character. -/
theorem digit_ne_of_not_digit (c x : Char) (h : c.isDigit = true)
    (hx : x.isDigit = false) : c ≠ x := by
  intro he
  subst he
  rw [h] at hx
  cases hx

/-- Dropping whitespace ignores a leading all-whitespace block. -/
theorem skip_ws_ws_append (a b : List Char)
    (ha : ∀ c ∈ a, c.isWhitespace = true) : skip_ws (a ++ b) = skip_ws b := by
  induction a with
  | nil => rfl
  | cons c a ih =>
      have hc := ha c (List.mem_cons_self _ _)
      simp only [List.cons_append, skip_ws, List.dropWhile_cons, hc, if_true]
      exact ih (fun c hc => ha c (List.mem_cons_of_mem _ hc))

/-- `skip_ws` is the identity on input starting with a non-whitespace
character. -/
theorem skip_ws_not_ws (c : Char) (cs : List Char) (h : c.isWhitespace = false) :
    skip_ws (c :: cs) = c :: cs := by
  simp [skip_ws, List.dropWhile_cons, h]

/-- Indentation consists of whitespace. -/
theorem indent_chars_ws (L : Nat) : ∀ c ∈ indent_chars L, c.isWhitespace = true := by
  intro c hc
  simp only [indent_chars] at hc
  rw [List.eq_of_mem_replicate hc]
  decide

/-- Skipping whitespace over a rendered newline-plus-indentation
separator. -/
theorem skip_ws_sep (L : Nat) (cs : List Char) :
    skip_ws ('\n' :: (indent_chars L ++ cs)) = skip_ws cs := by
  rw [show '\n' :: (indent_chars L ++ cs) = ('\n' :: indent_chars L) ++ cs by simp]
  refine skip_ws_ws_append _ _ ?_
  intro c hc
  rcases List.mem_cons.mp hc with h | h
  · subst h; decide
  · exact indent_chars_ws L c h

/-- `nat_repr` starts with a digit. -/
theorem nat_repr_head (n : Nat) :
    ∃ d ds, nat_repr n = d :: ds ∧ d.isDigit = true := by
  obtain ⟨d, ds, h⟩ := List.exists_cons_of_ne_nil (nat_repr_ne_nil n)
  exact ⟨d, ds, h, nat_repr_all_digits n d (h ▸ List.mem_cons_self _ _)⟩

/-- The reversed digits of a one-digit number. -/
theorem nat_digits_rev_single (d : Nat) (h1 : 0 < d) (h2 : d < 10) :
    nat_digits_rev d = [digit_char d] := by
  match d, h1 with
  | m + 1, _ =>
      rw [nat_digits_rev, Nat.div_eq_of_lt h2, Nat.mod_eq_of_lt h2,
        nat_digits_rev]

/-- `nat_repr` of a one-digit positive number. -/
theorem nat_repr_single (d : Nat) (h1 : 0 < d) (h2 : d < 10) :
    nat_repr d = [digit_char d] := by
  rw [nat_repr, if_neg (by omega), nat_digits_rev_single d h1 h2]
  rfl

/-- `nat_repr` of a two-digit number. -/
theorem nat_repr_double (d : Nat) (h1 : 10 ≤ d) (h2 : d < 100) :
    nat_repr d = [digit_char (d / 10), digit_char (d % 10)] := by
  match d, h1 with
  | m + 1, _ =>
      rw [nat_repr, if_neg (by omega), nat_digits_rev,
        nat_digits_rev_single ((m + 1) / 10) (by omega)
          (Nat.div_lt_of_lt_mul (by omega))]
      rfl

/-- Parsing a rendered integer literal. -/
theorem parse_number_int (n : Nat) (rest : List Char)
    (hrest : ∀ c, rest.head? = some c → c.isDigit = false ∧ c ≠ '.') :
    parse_number (nat_repr n ++ rest) = some (Json.int n, rest) := by
  have hsplit := takeWhile_append_all Char.isDigit (nat_repr n) rest
    (nat_repr_all_digits n) (fun c hc => (hrest c hc).1)
  simp only [parse_number, hsplit.1, hsplit.2, nat_of_digits_repr]
  rw [if_neg (nat_repr_ne_nil n)]
  split
  · exfalso
    exact (hrest '.' rfl).2 rfl
  · rfl

/-- A cons cell's head satisfies a property it is known to satisfy. -/
theorem head_cond_cons (p : Char → Bool) (x : Char) (xs : List Char)
    (hx : p x = false) :
    ∀ c, (x :: xs).head? = some c → p c = false := by
  intro c hc
  rw [List.head?_cons, Option.some.injEq] at hc
  rw [← hc]
  exact hx

/-- Parsing a rendered decimal literal recovers the exact rational. -/
theorem parse_number_dec (q : ℚ) (hq : 0 ≤ q) (hden : (q * 100).den = 1)
    (rest : List Char)
    (hrest : ∀ c, rest.head? = some c → c.isDigit = false ∧ c ≠ '.') :
    parse_number (dec_repr q ++ rest) = some (Json.dec q, rest) := by
  have hnum_nonneg : 0 ≤ (q * 100).num := Rat.num_nonneg.mpr (by positivity)
  have h1 : ((q * 100).num : ℚ) = q * 100 := by
    conv_rhs => rw [← Rat.num_div_den (q * 100)]
    rw [hden]
    norm_num
  set t := (q * 100).num.toNat with htdef
  have hqt : (t : ℚ) = q * 100 := by
    have h3 : ((q * 100).num.toNat : ℤ) = (q * 100).num :=
      Int.toNat_of_nonneg hnum_nonneg
    calc ((t : ℕ) : ℚ) = (((t : ℕ) : ℤ) : ℚ) := by norm_cast
      _ = (((q * 100).num : ℤ) : ℚ) := by rw [htdef, h3]
      _ = q * 100 := h1
  have hmod : t % 100 < 100 := Nat.mod_lt _ (by omega)
  have hdm : 100 * (t / 100) + t % 100 = t := Nat.div_add_mod t 100
  have hcast : ((100 * (t / 100) + t % 100 : ℕ) : ℚ) = (t : ℚ) := by
    rw [hdm]
  push_cast at hcast
  simp only [dec_repr]
  rw [← htdef]
  by_cases h0 : t % 100 = 0
  · rw [if_pos h0, List.append_assoc]
    simp only [List.cons_append, List.nil_append]
    have hsplit := takeWhile_append_all Char.isDigit (nat_repr (t / 100))
      ('.' :: ([digit_char 0] ++ rest)) (nat_repr_all_digits _)
      (head_cond_cons _ _ _ (by decide))
    simp only [List.cons_append, List.nil_append] at hsplit
    simp only [parse_number, hsplit.1, hsplit.2, nat_of_digits_repr]
    rw [if_neg (nat_repr_ne_nil _)]
    have hsplit2 := takeWhile_append_all Char.isDigit [digit_char 0] rest
      (by intro c hc; simp at hc; subst hc; decide)
      (fun c hc => (hrest c hc).1)
    simp only [List.cons_append, List.nil_append] at hsplit2
    simp only [hsplit2.1, hsplit2.2]
    rw [if_neg (by simp : ¬([digit_char 0] : List Char) = [])]
    have hv : ((t / 100 : ℕ) : ℚ)
        + (nat_of_digits [digit_char 0] : ℚ) / (10 : ℚ) ^ ([digit_char 0] : List Char).length
        = q := by
      rw [show nat_of_digits [digit_char 0] = 0 from by decide]
      rw [h0] at hcast
      simp only [List.length_cons, List.length_nil]
      push_cast at hcast ⊢
      norm_num
      nlinarith [hqt, hcast]
    rw [hv]
  · rw [if_neg h0]
    by_cases h10 : t % 100 % 10 = 0
    · rw [if_pos h10, List.append_assoc]
      simp only [List.cons_append, List.nil_append]
      have hd1 : 0 < t % 100 / 10 := by omega
      have hd2 : t % 100 / 10 < 10 := by omega
      have hsplit := takeWhile_append_all Char.isDigit (nat_repr (t / 100))
        ('.' :: (nat_repr (t % 100 / 10) ++ rest)) (nat_repr_all_digits _)
        (head_cond_cons _ _ _ (by decide))
      simp only [List.cons_append, List.nil_append] at hsplit
      simp only [parse_number, hsplit.1, hsplit.2, nat_of_digits_repr]
      rw [if_neg (nat_repr_ne_nil _)]
      have hsplit2 := takeWhile_append_all Char.isDigit (nat_repr (t % 100 / 10))
        rest (nat_repr_all_digits _) (fun c hc => (hrest c hc).1)
      simp only [hsplit2.1, hsplit2.2, nat_of_digits_repr]
      rw [if_neg (nat_repr_ne_nil _)]
      have hv : ((t / 100 : ℕ) : ℚ)
          + ((t % 100 / 10 : ℕ) : ℚ) / (10 : ℚ) ^ (nat_repr (t % 100 / 10)).length
          = q := by
        rw [nat_repr_single _ hd1 hd2]
        have hh : 10 * (t % 100 / 10) = t % 100 := by omega
        have hcast2 : ((10 * (t % 100 / 10) : ℕ) : ℚ) = ((t % 100 : ℕ) : ℚ) := by
          rw [hh]
        simp only [List.length_cons, List.length_nil]
        push_cast at hcast2 ⊢
        norm_num
        nlinarith [hqt, hcast, hcast2]
      rw [hv]
    · rw [if_neg h10]
      by_cases hlt : t % 100 < 10
      · rw [if_pos hlt, List.append_assoc]
        simp only [List.cons_append, List.nil_append]
        have hd1 : 0 < t % 100 := by omega
        have hsplit := takeWhile_append_all Char.isDigit (nat_repr (t / 100))
          ('.' :: ((digit_char 0 :: nat_repr (t % 100)) ++ rest))
          (nat_repr_all_digits _) (head_cond_cons _ _ _ (by decide))
        simp only [List.cons_append, List.nil_append] at hsplit
        simp only [parse_number, hsplit.1, hsplit.2, nat_of_digits_repr]
        rw [if_neg (nat_repr_ne_nil _)]
        have hall : ∀ c ∈ digit_char 0 :: nat_repr (t % 100), c.isDigit = true := by
          intro c hc
          rcases List.mem_cons.mp hc with h | h
          · subst h; decide
          · exact nat_repr_all_digits _ c h
        have hsplit2 := takeWhile_append_all Char.isDigit
          (digit_char 0 :: nat_repr (t % 100)) rest hall
          (fun c hc => (hrest c hc).1)
        simp only [List.cons_append, List.nil_append] at hsplit2
        simp only [hsplit2.1, hsplit2.2]
        rw [if_neg (by simp : ¬(digit_char 0 :: nat_repr (t % 100)) = [])]
        have hv : ((t / 100 : ℕ) : ℚ)
            + (nat_of_digits (digit_char 0 :: nat_repr (t % 100)) : ℚ)
              / (10 : ℚ) ^ (digit_char 0 :: nat_repr (t % 100)).length
            = q := by
          rw [nat_of_digits_zero_cons, nat_of_digits_repr,
            nat_repr_single _ hd1 hlt]
          simp only [List.length_cons, List.length_nil]
          push_cast
          norm_num
          nlinarith [hqt, hcast]
        rw [hv]
      · rw [if_neg hlt, List.append_assoc]
        simp only [List.cons_append, List.nil_append]
        have hsplit := takeWhile_append_all Char.isDigit (nat_repr (t / 100))
          ('.' :: (nat_repr (t % 100) ++ rest)) (nat_repr_all_digits _)
          (head_cond_cons _ _ _ (by decide))
        simp only [List.cons_append, List.nil_append] at hsplit
        simp only [parse_number, hsplit.1, hsplit.2, nat_of_digits_repr]
        rw [if_neg (nat_repr_ne_nil _)]
        have hsplit2 := takeWhile_append_all Char.isDigit (nat_repr (t % 100))
          rest (nat_repr_all_digits _) (fun c hc => (hrest c hc).1)
        simp only [hsplit2.1, hsplit2.2, nat_of_digits_repr]
        rw [if_neg (nat_repr_ne_nil _)]
        have hv : ((t / 100 : ℕ) : ℚ)
            + ((t % 100 : ℕ) : ℚ) / (10 : ℚ) ^ (nat_repr (t % 100)).length
            = q := by
          rw [nat_repr_double _ (by omega) hmod]
          simp only [List.length_cons, List.length_nil]
          push_cast
          norm_num
          nlinarith [hqt, hcast]
        rw [hv]

/-- A well-formed character is neither the quote nor the backslash. -/
theorem wf_char_ne (c : Char) (h : wf_char c = true) :
    c ≠ quoteChar ∧ c ≠ '\\' := by
  simp only [wf_char, Bool.and_eq_true, Bool.not_eq_true', decide_eq_true_eq,
    decide_eq_false_iff_not] at h
  exact ⟨h.1.2, h.2⟩

/-- A well-formed character escapes to itself. -/
theorem wf_char_escape (c : Char) (h : wf_char c = true) :
    escape_char c = [c] := by
  simp only [wf_char, Bool.and_eq_true, Bool.not_eq_true', decide_eq_true_eq,
    decide_eq_false_iff_not] at h
  obtain ⟨⟨⟨h32, h126⟩, hq⟩, hb⟩ := h
  unfold escape_char
  rw [if_neg hq, if_neg hb, if_neg ?_, if_neg ?_, if_neg ?_]
  · intro he
    subst he
    exact absurd h32 (by decide)
  · intro he
    subst he
    exact absurd h32 (by decide)
  · intro he
    subst he
    exact absurd h32 (by decide)

/-- Escaping is the identity on well-formed character lists. -/
theorem escape_list_id (l : List Char) (h : ∀ c ∈ l, wf_char c = true) :
    (l.map escape_char).flatten = l := by
  induction l with
  | nil => rfl
  | cons c l ih =>
      rw [List.map_cons, List.flatten_cons,
        wf_char_escape c (h c (List.mem_cons_self _ _)),
        ih (fun c hc => h c (List.mem_cons_of_mem _ hc))]
      rfl

/-- Escaping is the identity on well-formed strings. -/
theorem escape_string_id (s : String) (h : wf_string s = true) :
    escape_string s = s.data := by
  unfold escape_string
  exact escape_list_id s.data (by simpa [wf_string, List.all_eq_true] using h)

/-- Parsing the rendered body of a well-formed string recovers it. -/
theorem parse_string_chars_append (l rest : List Char)
    (h : ∀ c ∈ l, wf_char c = true) :
    parse_string_chars (l ++ quoteChar :: rest) = some (l, rest) := by
  induction l with
  | nil =>
      rw [List.nil_append, parse_string_chars.eq_def]
      simp only []
      rw [if_pos trivial]
  | cons c l ih =>
      have hne := wf_char_ne c (h c (List.mem_cons_self _ _))
      rw [List.cons_append, parse_string_chars.eq_def]
      simp only []
      rw [if_neg hne.1, if_neg hne.2,
        ih (fun c hc => h c (List.mem_cons_of_mem _ hc))]

/-- `dec_repr` begins with the integer-part digits. -/
theorem dec_repr_head (q : ℚ) :
    ∃ tail, dec_repr q = nat_repr ((q * 100).num.toNat / 100) ++ tail := by
  simp only [dec_repr]
  split
  · exact ⟨_, rfl⟩
  · split
    · exact ⟨_, rfl⟩
    · split
      · exact ⟨_, rfl⟩
      · exact ⟨_, rfl⟩

/-- Every rendered JSON value starts with a non-whitespace character. -/
theorem render_json_head (j : Json) (lvl : Nat) :
    ∃ c cs, render_json j lvl = c :: cs ∧ c.isWhitespace = false := by
  cases j with
  | str s =>
      refine ⟨quoteChar, escape_string s ++ [quoteChar], ?_, by decide⟩
      rw [render_json]
      rfl
  | int n =>
      obtain ⟨d, ds, hd, hdig⟩ := nat_repr_head n
      exact ⟨d, ds, by rw [render_json, hd], digit_not_ws _ hdig⟩
  | dec q =>
      obtain ⟨tail, htail⟩ := dec_repr_head q
      obtain ⟨d, ds, hd, hdig⟩ := nat_repr_head ((q * 100).num.toNat / 100)
      refine ⟨d, ds ++ tail, ?_, digit_not_ws _ hdig⟩
      rw [render_json, htail, hd]
      rfl
  | arr es =>
      cases es with
      | nil => exact ⟨'[', [']'], by rw [render_json], by decide⟩
      | cons x xs =>
          refine ⟨'[', '\n' :: (indent_chars (lvl + 1)
            ++ render_json x (lvl + 1)
            ++ render_arr_items xs (lvl + 1)
            ++ '\n' :: (indent_chars lvl ++ [']'])), ?_, by decide⟩
          rw [render_json]
  | obj fs =>
      cases fs with
      | nil => exact ⟨lbraceChar, [rbraceChar], by rw [render_json], by decide⟩
      | cons f fs =>
          refine ⟨lbraceChar, '\n' :: (indent_chars (lvl + 1)
            ++ render_field f (lvl + 1)
            ++ render_obj_fields fs (lvl + 1)
            ++ '\n' :: (indent_chars lvl ++ [rbraceChar])), ?_, by decide⟩
          rw [render_json]

/-- `skip_ws` leaves rendered values alone. -/
theorem skip_ws_render (j : Json) (lvl : Nat) (rest : List Char) :
    skip_ws (render_json j lvl ++ rest) = render_json j lvl ++ rest := by
  obtain ⟨c, cs, heq, hws⟩ := render_json_head j lvl
  rw [heq, List.cons_append, skip_ws_not_ws _ _ hws]

/-- Parsing a rendered string value. -/
theorem parse_value_str (s : String) (h : wf_string s = true) (lvl fuel : Nat)
    (hf : 1 ≤ fuel) (rest : List Char) :
    parse_value fuel (render_json (Json.str s) lvl ++ rest)
      = some (Json.str s, rest) := by
  match fuel, hf with
  | f + 1, _ =>
      have hrend : render_json (Json.str s) lvl
          = quoteChar :: (escape_string s ++ [quoteChar]) := by
        rw [render_json]
        rfl
      have hesc : escape_string s = s.data := escape_string_id s h
      rw [parse_value.eq_def]
      simp only [hrend, hesc, List.cons_append]
      rw [skip_ws_not_ws _ _ (by decide)]
      simp only [List.append_assoc, List.singleton_append]
      rw [if_pos trivial]
      rw [parse_string_chars_append s.data rest
        (by simpa [wf_string, List.all_eq_true] using h)]

/-- Parsing a rendered integer value. -/
theorem parse_value_int (n : Nat) (lvl fuel : Nat) (hf : 1 ≤ fuel)
    (rest : List Char)
    (hrest : ∀ c, rest.head? = some c → c.isDigit = false ∧ c ≠ '.') :
    parse_value fuel (render_json (Json.int n) lvl ++ rest)
      = some (Json.int n, rest) := by
  match fuel, hf with
  | f + 1, _ =>
      obtain ⟨d, ds, hd, hdig⟩ := nat_repr_head n
      have hrend : render_json (Json.int n) lvl = nat_repr n := by
        rw [render_json]
      rw [parse_value.eq_def]
      simp only [hrend, hd, List.cons_append]
      rw [skip_ws_not_ws _ _ (digit_not_ws _ hdig)]
      simp only []
      rw [if_neg (digit_ne_of_not_digit _ _ hdig (by decide)),
        if_neg (digit_ne_of_not_digit _ _ hdig (by decide)),
        if_neg (digit_ne_of_not_digit _ _ hdig (by decide))]
      rw [show d :: (ds ++ rest) = nat_repr n ++ rest from by rw [hd]; rfl]
      exact parse_number_int n rest hrest

/-- Parsing a rendered decimal value. -/
theorem parse_value_dec (q : ℚ) (hwf : wf_dec q = true) (lvl fuel : Nat)
    (hf : 1 ≤ fuel) (rest : List Char)
    (hrest : ∀ c, rest.head? = some c → c.isDigit = false ∧ c ≠ '.') :
    parse_value fuel (render_json (Json.dec q) lvl ++ rest)
      = some (Json.dec q, rest) := by
  match fuel, hf with
  | f + 1, _ =>
      simp only [wf_dec, Bool.and_eq_true, decide_eq_true_eq, beq_iff_eq] at hwf
      obtain ⟨tail, htail⟩ := dec_repr_head q
      obtain ⟨d, ds, hd, hdig⟩ := nat_repr_head ((q * 100).num.toNat / 100)
      have hrend : render_json (Json.dec q) lvl = dec_repr q := by
        rw [render_json]
      rw [parse_value.eq_def]
      simp only [hrend, htail, hd, List.cons_append, List.append_assoc]
      rw [skip_ws_not_ws _ _ (digit_not_ws _ hdig)]
      simp only []
      rw [if_neg (digit_ne_of_not_digit _ _ hdig (by decide)),
        if_neg (digit_ne_of_not_digit _ _ hdig (by decide)),
        if_neg (digit_ne_of_not_digit _ _ hdig (by decide))]
      rw [show d :: (ds ++ (tail ++ rest)) = dec_repr q ++ rest from by
        rw [htail, hd]; simp]
      exact parse_number_dec q hwf.1 hwf.2 rest hrest

/-- Useful rest-head fact: a separator starting with a comma or newline is
safe after a number. -/
theorem head_safe_cons (x : Char) (xs : List Char)
    (hx : x.isDigit = false) (hd : x ≠ '.') :
    ∀ c, (x :: xs).head? = some c → c.isDigit = false ∧ c ≠ '.' := by
  intro c hc
  rw [List.head?_cons, Option.some.injEq] at hc
  rw [← hc]
  exact ⟨hx, hd⟩

/-- Parsing the rendered items of an integer array: each loop iteration
consumes one item and its separator, and the closing bracket ends the
list. -/
theorem parse_arr_items_ints (lvl : Nat) (xs : List Nat) :
    ∀ (x : Nat) (fuel : Nat) (rest : List Char), xs.length + 2 ≤ fuel →
      parse_arr_items fuel
        ('\n' :: (indent_chars (lvl + 1)
          ++ (nat_repr x
          ++ (render_arr_items (xs.map Json.int) (lvl + 1)
          ++ ('\n' :: (indent_chars lvl ++ (']' :: rest)))))))
        = some (Json.int x :: xs.map Json.int, rest) := by
  induction xs with
  | nil =>
      intro x fuel rest hf
      match fuel, hf with
      | f + 1, _ =>
          obtain ⟨d, ds, hd, hdig⟩ := nat_repr_head x
          have harr : render_arr_items (([] : List Nat).map Json.int) (lvl + 1)
              = [] := by
            rw [List.map_nil, render_arr_items]
          rw [parse_arr_items.eq_def]
          simp only [harr, List.nil_append]
          rw [skip_ws_sep]
          rw [show nat_repr x ++ ('\n' :: (indent_chars lvl ++ (']' :: rest)))
              = d :: (ds ++ ('\n' :: (indent_chars lvl ++ (']' :: rest))))
            from by rw [hd]; rfl]
          rw [skip_ws_not_ws _ _ (digit_not_ws _ hdig)]
          simp only []
          rw [if_neg (digit_ne_of_not_digit _ _ hdig (by decide))]
          rw [show d :: (ds ++ ('\n' :: (indent_chars lvl ++ (']' :: rest))))
              = render_json (Json.int x) (lvl + 1)
                ++ ('\n' :: (indent_chars lvl ++ (']' :: rest)))
            from by rw [render_json, hd]; rfl]
          rw [parse_value_int x (lvl + 1) f (by omega) _
            (head_safe_cons _ _ (by decide) (by decide))]
          simp only []
          rw [skip_ws_sep, skip_ws_not_ws _ _ (by decide)]
          simp only []
          rw [if_neg (by decide), if_pos trivial]
          rfl
  | cons y xs ih =>
      intro x fuel rest hf
      match fuel, hf with
      | f + 1, hf2 =>
          obtain ⟨d, ds, hd, hdig⟩ := nat_repr_head x
          have harr : render_arr_items ((y :: xs).map Json.int) (lvl + 1)
              = ',' :: '\n' :: (indent_chars (lvl + 1)
                ++ (nat_repr y
                ++ render_arr_items (xs.map Json.int) (lvl + 1))) := by
            rw [List.map_cons, render_arr_items, render_json]
            simp [List.append_assoc]
          rw [parse_arr_items.eq_def]
          simp only [harr, List.cons_append, List.append_assoc]
          rw [skip_ws_sep]
          rw [show nat_repr x ++ (',' :: '\n' :: (indent_chars (lvl + 1)
                ++ (nat_repr y ++ (render_arr_items (xs.map Json.int) (lvl + 1)
                ++ ('\n' :: (indent_chars lvl ++ (']' :: rest)))))))
              = d :: (ds ++ (',' :: '\n' :: (indent_chars (lvl + 1)
                ++ (nat_repr y ++ (render_arr_items (xs.map Json.int) (lvl + 1)
                ++ ('\n' :: (indent_chars lvl ++ (']' :: rest))))))))
            from by rw [hd]; rfl]
          rw [skip_ws_not_ws _ _ (digit_not_ws _ hdig)]
          simp only []
          rw [if_neg (digit_ne_of_not_digit _ _ hdig (by decide))]
          rw [show d :: (ds ++ (',' :: '\n' :: (indent_chars (lvl + 1)
                ++ (nat_repr y ++ (render_arr_items (xs.map Json.int) (lvl + 1)
                ++ ('\n' :: (indent_chars lvl ++ (']' :: rest))))))))
              = render_json (Json.int x) (lvl + 1)
                ++ (',' :: '\n' :: (indent_chars (lvl + 1)
                ++ (nat_repr y ++ (render_arr_items (xs.map Json.int) (lvl + 1)
                ++ ('\n' :: (indent_chars lvl ++ (']' :: rest)))))))
            from by rw [render_json, hd]; rfl]
          rw [parse_value_int x (lvl + 1) f (by omega) _
            (head_safe_cons _ _ (by decide) (by decide))]
          simp only []
          rw [skip_ws_not_ws _ _ (by decide)]
          simp only []
          rw [if_pos trivial]
          rw [ih y f rest (by simp only [List.length_cons] at hf2; omega)]
          rfl

/-- `parse_value` ignores leading whitespace. -/
theorem parse_value_ws (f : Nat) (a cs : List Char)
    (ha : ∀ c ∈ a, c.isWhitespace = true) :
    parse_value (f + 1) (a ++ cs) = parse_value (f + 1) cs := by
  rw [parse_value.eq_def]
  conv_rhs => rw [parse_value.eq_def]
  simp only []
  rw [skip_ws_ws_append a cs ha]

/-- Parsing a rendered integer array recovers it. -/
theorem parse_value_codes (codes : List Nat) (lvl fuel : Nat)
    (rest : List Char) (hf : codes.length + 3 ≤ fuel) :
    parse_value fuel (render_json (Json.arr (codes.map Json.int)) lvl ++ rest)
      = some (Json.arr (codes.map Json.int), rest) := by
  match fuel, hf with
  | f + 1, hf2 =>
      cases codes with
      | nil =>
          rw [parse_value.eq_def]
          rw [show render_json (Json.arr (([] : List Nat).map Json.int)) lvl
              = ['[', ']'] from by rw [List.map_nil, render_json]]
          rw [show (['[', ']'] : List Char) ++ rest = '[' :: ']' :: rest from rfl]
          simp only []
          rw [skip_ws_not_ws _ _ (by decide)]
          simp only []
          rw [if_neg (by decide), if_pos trivial]
          obtain ⟨f2, rfl⟩ : ∃ f2, f = f2 + 1 :=
            ⟨f - 1, by simp only [List.length_nil] at hf2; omega⟩
          rw [parse_arr_items.eq_def]
          simp only []
          rw [skip_ws_not_ws _ _ (by decide)]
          simp only []
          rw [if_pos trivial]
          rfl
      | cons c cs =>
          rw [parse_value.eq_def]
          rw [show render_json (Json.arr ((c :: cs).map Json.int)) lvl ++ rest
              = '[' :: '\n' :: (indent_chars (lvl + 1)
                ++ (nat_repr c
                ++ (render_arr_items (cs.map Json.int) (lvl + 1)
                ++ ('\n' :: (indent_chars lvl ++ (']' :: rest))))))
            from by
              rw [List.map_cons, render_json, render_json]
              simp [List.append_assoc]]
          simp only []
          rw [skip_ws_not_ws _ _ (by decide)]
          simp only []
          rw [if_neg (by decide), if_pos trivial]
          rw [parse_arr_items_ints lvl cs c f rest
            (by simp only [List.length_cons] at hf2; omega)]
          rfl

/-- Parsing one rendered `"key": value` member of an object: the key and
value are recovered and the continuation dispatches on what follows
(a comma continues the member loop, a closing brace ends it). -/
theorem parse_obj_fields_step (g lvl : Nat) (k : String)
    (hk : ∀ c ∈ k.data, wf_char c = true) (v : Json) (after : List Char)
    (hv : parse_value g (render_json v (lvl + 1) ++ after) = some (v, after)) :
    parse_obj_fields (g + 1) ('\n' :: (indent_chars (lvl + 1)
        ++ (render_field (k, v) (lvl + 1) ++ after)))
      = match skip_ws after with
        | [] => none
        | c3 :: rest3 =>
            if c3 = ',' then
              match parse_obj_fields g rest3 with
              | none => none
              | some (fields, r3) => some ((k, v) :: fields, r3)
            else if c3 = rbraceChar then some ([(k, v)], rest3)
            else none := by
  obtain ⟨g2, rfl⟩ : ∃ g2, g = g2 + 1 := by
    cases g with
    | zero =>
        rw [show parse_value 0 (render_json v (lvl + 1) ++ after) = none
          from by rw [parse_value.eq_def]] at hv
        cases hv
    | succ g2 => exact ⟨g2, rfl⟩
  rw [parse_obj_fields.eq_def]
  simp only []
  rw [skip_ws_sep]
  rw [show render_field (k, v) (lvl + 1) ++ after
      = quoteChar :: ((k.data ++ (quoteChar :: (':' :: (' '
        :: (render_json v (lvl + 1) ++ after))))))
    from by
      rw [render_field, str_repr, escape_string_id k (by
        simpa [wf_string, List.all_eq_true] using hk)]
      simp]
  rw [skip_ws_not_ws _ _ (by decide)]
  simp only []
  rw [if_neg (by decide), if_pos trivial]
  rw [parse_string_chars_append k.data _ hk]
  simp only []
  rw [skip_ws_not_ws _ _ (by decide)]
  simp only []
  rw [if_pos trivial]
  rw [show (' ' :: (render_json v (lvl + 1) ++ after))
      = [' '] ++ (render_json v (lvl + 1) ++ after) from rfl]
  rw [parse_value_ws g2 _ _ (by intro c hc; simp at hc; subst hc; decide)]
  rw [hv]

/-- Parsing a rendered `WordEntry` object recovers it. -/
theorem parse_value_entry (e : WordEntry) (hwf : wf_word_entry e = true)
    (lvl fuel : Nat) (rest : List Char) (hf : e.codes.length + 8 ≤ fuel) :
    parse_value fuel (render_json (word_entry_to_json e) lvl ++ rest)
      = some (word_entry_to_json e, rest) := by
  simp only [wf_word_entry, Bool.and_eq_true] at hwf
  match fuel, hf with
  | f + 1, hf2 =>
  obtain ⟨f1, rfl⟩ : ∃ f1, f = f1 + 1 := ⟨f - 1, by omega⟩
  obtain ⟨f2, rfl⟩ : ∃ f2, f1 = f2 + 1 := ⟨f1 - 1, by omega⟩
  obtain ⟨f3, rfl⟩ : ∃ f3, f2 = f3 + 1 := ⟨f2 - 1, by omega⟩
  have hv1 : parse_value (f3 + 1 + 1) (render_json (Json.str e.word) (lvl + 1)
      ++ (',' :: '\n' :: (indent_chars (lvl + 1)
        ++ (render_field ("duration", Json.dec e.duration) (lvl + 1)
        ++ (',' :: '\n' :: (indent_chars (lvl + 1)
        ++ (render_field ("codes", Json.arr (e.codes.map Json.int)) (lvl + 1)
        ++ ('\n' :: (indent_chars lvl ++ (rbraceChar :: rest))))))))))
      = some (Json.str e.word, _) :=
    parse_value_str e.word hwf.1 (lvl + 1) _ (by omega) _
  have hv2 : parse_value (f3 + 1) (render_json (Json.dec e.duration) (lvl + 1)
      ++ (',' :: '\n' :: (indent_chars (lvl + 1)
        ++ (render_field ("codes", Json.arr (e.codes.map Json.int)) (lvl + 1)
        ++ ('\n' :: (indent_chars lvl ++ (rbraceChar :: rest)))))))
      = some (Json.dec e.duration, _) :=
    parse_value_dec e.duration hwf.2 (lvl + 1) _ (by omega) _
      (head_safe_cons _ _ (by decide) (by decide))
  have hv3 : parse_value f3 (render_json (Json.arr (e.codes.map Json.int)) (lvl + 1)
      ++ ('\n' :: (indent_chars lvl ++ (rbraceChar :: rest))))
      = some (Json.arr (e.codes.map Json.int), _) :=
    parse_value_codes e.codes (lvl + 1) f3 _ (by omega)
  rw [parse_value.eq_def]
  simp only []
  rw [show render_json (word_entry_to_json e) lvl ++ rest
      = lbraceChar :: ('\n' :: (indent_chars (lvl + 1)
        ++ (render_field ("word", Json.str e.word) (lvl + 1)
        ++ (',' :: '\n' :: (indent_chars (lvl + 1)
        ++ (render_field ("duration", Json.dec e.duration) (lvl + 1)
        ++ (',' :: '\n' :: (indent_chars (lvl + 1)
        ++ (render_field ("codes", Json.arr (e.codes.map Json.int)) (lvl + 1)
        ++ ('\n' :: (indent_chars lvl ++ (rbraceChar :: rest))))))))))))
    from by
      simp [word_entry_to_json, render_json, render_obj_fields,
        List.append_assoc]]
  rw [skip_ws_not_ws _ _ (by decide)]
  simp only []
  rw [if_neg (by decide), if_neg (by decide), if_pos trivial]
  rw [parse_obj_fields_step (f3 + 1 + 1) lvl "word" (by decide)
    (Json.str e.word) _ hv1]
  rw [skip_ws_not_ws _ _ (by decide)]
  simp only []
  rw [if_pos trivial]
  rw [parse_obj_fields_step (f3 + 1) lvl "duration" (by decide)
    (Json.dec e.duration) _ hv2]
  rw [skip_ws_not_ws _ _ (by decide)]
  simp only []
  rw [if_pos trivial]
  rw [parse_obj_fields_step f3 lvl "codes" (by decide)
    (Json.arr (e.codes.map Json.int)) _ hv3]
  rw [skip_ws_sep, skip_ws_not_ws _ _ (by decide)]
  simp only []
  rw [if_neg (by decide), if_pos trivial]
  rfl

/-- Parsing the rendered items of an array of `WordEntry` objects. -/
theorem parse_arr_items_entries (lvl : Nat) (xs : List WordEntry) :
    ∀ (x : WordEntry) (fuel : Nat) (rest : List Char),
      wf_word_entry x = true → (∀ e ∈ xs, wf_word_entry e = true) →
      ((x :: xs).map (fun e => e.codes.length + 9)).sum ≤ fuel →
      parse_arr_items fuel
        ('\n' :: (indent_chars (lvl + 1)
          ++ (render_json (word_entry_to_json x) (lvl + 1)
          ++ (render_arr_items (xs.map word_entry_to_json) (lvl + 1)
          ++ ('\n' :: (indent_chars lvl ++ (']' :: rest)))))))
        = some ((x :: xs).map word_entry_to_json, rest) := by
  induction xs with
  | nil =>
      intro x fuel rest hwx hwxs hf
      simp only [List.map_cons, List.map_nil, List.sum_cons, List.sum_nil] at hf
      obtain ⟨f, rfl⟩ : ∃ f, fuel = f + 1 := ⟨fuel - 1, by omega⟩
      obtain ⟨tl, htl⟩ : ∃ tl,
          render_json (word_entry_to_json x) (lvl + 1) = lbraceChar :: tl := by
        rw [word_entry_to_json, render_json]
        exact ⟨_, rfl⟩
      have harr : render_arr_items (([] : List WordEntry).map word_entry_to_json)
          (lvl + 1) = [] := by
        rw [List.map_nil, render_arr_items]
      rw [parse_arr_items.eq_def]
      simp only [harr, List.nil_append]
      rw [skip_ws_sep, htl, List.cons_append,
        skip_ws_not_ws _ _ (by decide)]
      simp only []
      rw [if_neg (by decide)]
      rw [show lbraceChar :: (tl ++ ('\n' :: (indent_chars lvl ++ (']' :: rest))))
          = render_json (word_entry_to_json x) (lvl + 1)
            ++ ('\n' :: (indent_chars lvl ++ (']' :: rest)))
        from by rw [htl]; rfl]
      rw [parse_value_entry x hwx (lvl + 1) f _ (by omega)]
      simp only []
      rw [skip_ws_sep, skip_ws_not_ws _ _ (by decide)]
      simp only []
      rw [if_neg (by decide), if_pos trivial]
      rfl
  | cons y xs ih =>
      intro x fuel rest hwx hwxs hf
      simp only [List.map_cons, List.sum_cons] at hf
      obtain ⟨f, rfl⟩ : ∃ f, fuel = f + 1 := ⟨fuel - 1, by omega⟩
      obtain ⟨tl, htl⟩ : ∃ tl,
          render_json (word_entry_to_json x) (lvl + 1) = lbraceChar :: tl := by
        rw [word_entry_to_json, render_json]
        exact ⟨_, rfl⟩
      have harr : render_arr_items ((y :: xs).map word_entry_to_json) (lvl + 1)
          = ',' :: '\n' :: (indent_chars (lvl + 1)
            ++ (render_json (word_entry_to_json y) (lvl + 1)
            ++ render_arr_items (xs.map word_entry_to_json) (lvl + 1))) := by
        rw [List.map_cons, render_arr_items]
        simp [List.append_assoc]
      rw [parse_arr_items.eq_def]
      simp only [harr, List.cons_append, List.append_assoc]
      rw [skip_ws_sep, htl, List.cons_append,
        skip_ws_not_ws _ _ (by decide)]
      simp only []
      rw [if_neg (by decide)]
      rw [show lbraceChar :: (tl ++ (',' :: '\n' :: (indent_chars (lvl + 1)
            ++ (render_json (word_entry_to_json y) (lvl + 1)
            ++ (render_arr_items (xs.map word_entry_to_json) (lvl + 1)
            ++ ('\n' :: (indent_chars lvl ++ (']' :: rest))))))))
          = render_json (word_entry_to_json x) (lvl + 1)
            ++ (',' :: '\n' :: (indent_chars (lvl + 1)
            ++ (render_json (word_entry_to_json y) (lvl + 1)
            ++ (render_arr_items (xs.map word_entry_to_json) (lvl + 1)
            ++ ('\n' :: (indent_chars lvl ++ (']' :: rest)))))))
        from by rw [htl]; rfl]
      rw [parse_value_entry x hwx (lvl + 1) f _ (by omega)]
      simp only []
      rw [skip_ws_not_ws _ _ (by decide)]
      simp only []
      rw [if_pos trivial]
      rw [ih y f rest (hwxs y (List.mem_cons_self _ _))
        (fun e he => hwxs e (List.mem_cons_of_mem _ he))
        (by simp only [List.map_cons, List.sum_cons]; omega)]
      rfl

/-- Parsing a rendered array of `WordEntry` objects recovers it. -/
theorem parse_value_words (es : List WordEntry) (lvl fuel : Nat)
    (rest : List Char) (hw : ∀ e ∈ es, wf_word_entry e = true)
    (hf : (es.map (fun e => e.codes.length + 9)).sum + 2 ≤ fuel) :
    parse_value fuel (render_json (Json.arr (es.map word_entry_to_json)) lvl ++ rest)
      = some (Json.arr (es.map word_entry_to_json), rest) := by
  match fuel, hf with
  | f + 1, hf2 =>
      cases es with
      | nil =>
          rw [parse_value.eq_def]
          simp only []
          rw [show render_json (Json.arr (([] : List WordEntry).map word_entry_to_json))
                lvl ++ rest = '[' :: ']' :: rest
            from by rw [List.map_nil, render_json]; rfl]
          rw [skip_ws_not_ws _ _ (by decide)]
          simp only []
          rw [if_neg (by decide), if_pos trivial]
          obtain ⟨f2, rfl⟩ : ∃ f2, f = f2 + 1 := by
            simp only [List.map_nil, List.sum_nil] at hf2
            exact ⟨f - 1, by omega⟩
          rw [parse_arr_items.eq_def]
          simp only []
          rw [skip_ws_not_ws _ _ (by decide)]
          simp only []
          rw [if_pos trivial]
          rfl
      | cons e es =>
          rw [parse_value.eq_def]
          simp only []
          rw [show render_json (Json.arr ((e :: es).map word_entry_to_json)) lvl ++ rest
              = '[' :: '\n' :: (indent_chars (lvl + 1)
                ++ (render_json (word_entry_to_json e) (lvl + 1)
                ++ (render_arr_items (es.map word_entry_to_json) (lvl + 1)
                ++ ('\n' :: (indent_chars lvl ++ (']' :: rest))))))
            from by
              rw [List.map_cons, render_json]
              simp [List.append_assoc]]
          rw [skip_ws_not_ws _ _ (by decide)]
          simp only []
          rw [if_neg (by decide), if_pos trivial]
          rw [parse_arr_items_entries lvl es e f rest
            (hw e (List.mem_cons_self _ _))
            (fun x hx => hw x (List.mem_cons_of_mem _ hx))
            (by simp only [List.map_cons, List.sum_cons] at hf2 ⊢; omega)]

/-- Parsing a rendered speaker profile object recovers it. -/
theorem parse_value_profile (p : SpeakerProfile) (hwf : wf_profile p = true)
    (fuel : Nat) (rest : List Char)
    (hf : (p.words.map (fun e => e.codes.length + 9)).sum + 7 ≤ fuel) :
    parse_value fuel (render_json (profile_to_json p) 0 ++ rest)
      = some (profile_to_json p, rest) := by
  simp only [wf_profile, Bool.and_eq_true, List.all_eq_true] at hwf
  obtain ⟨f, rfl⟩ : ∃ f, fuel = f + 1 := ⟨fuel - 1, by omega⟩
  obtain ⟨f1, rfl⟩ : ∃ f1, f = f1 + 1 := ⟨f - 1, by omega⟩
  obtain ⟨f2, rfl⟩ : ∃ f2, f1 = f2 + 1 := ⟨f1 - 1, by omega⟩
  obtain ⟨f3, rfl⟩ : ∃ f3, f2 = f3 + 1 := ⟨f2 - 1, by omega⟩
  have hv1 : parse_value (f3 + 1 + 1) (render_json (Json.str p.text) (0 + 1)
      ++ (',' :: '\n' :: (indent_chars (0 + 1)
        ++ (render_field ("words", Json.arr (p.words.map word_entry_to_json)) (0 + 1)
        ++ (',' :: '\n' :: (indent_chars (0 + 1)
        ++ (render_field ("language", Json.str p.language) (0 + 1)
        ++ ('\n' :: (indent_chars 0 ++ (rbraceChar :: rest))))))))))
      = some (Json.str p.text, _) :=
    parse_value_str p.text hwf.1.1 (0 + 1) _ (by omega) _
  have hv2 : parse_value (f3 + 1) (render_json
        (Json.arr (p.words.map word_entry_to_json)) (0 + 1)
      ++ (',' :: '\n' :: (indent_chars (0 + 1)
        ++ (render_field ("language", Json.str p.language) (0 + 1)
        ++ ('\n' :: (indent_chars 0 ++ (rbraceChar :: rest)))))))
      = some (Json.arr (p.words.map word_entry_to_json), _) :=
    parse_value_words p.words (0 + 1) _ _ (fun e he => hwf.2 e he) (by omega)
  have hv3 : parse_value f3 (render_json (Json.str p.language) (0 + 1)
      ++ ('\n' :: (indent_chars 0 ++ (rbraceChar :: rest))))
      = some (Json.str p.language, _) :=
    parse_value_str p.language hwf.1.2 (0 + 1) _ (by omega) _
  rw [parse_value.eq_def]
  simp only []
  rw [show render_json (profile_to_json p) 0 ++ rest
      = lbraceChar :: ('\n' :: (indent_chars (0 + 1)
        ++ (render_field ("text", Json.str p.text) (0 + 1)
        ++ (',' :: '\n' :: (indent_chars (0 + 1)
        ++ (render_field ("words", Json.arr (p.words.map word_entry_to_json)) (0 + 1)
        ++ (',' :: '\n' :: (indent_chars (0 + 1)
        ++ (render_field ("language", Json.str p.language) (0 + 1)
        ++ ('\n' :: (indent_chars 0 ++ (rbraceChar :: rest))))))))))))
    from by
      simp [profile_to_json, render_json, render_obj_fields, List.append_assoc]]
  rw [skip_ws_not_ws _ _ (by decide)]
  simp only []
  rw [if_neg (by decide), if_neg (by decide), if_pos trivial]
  rw [parse_obj_fields_step (f3 + 1 + 1) 0 "text" (by decide)
    (Json.str p.text) _ hv1]
  rw [skip_ws_not_ws _ _ (by decide)]
  simp only []
  rw [if_pos trivial]
  rw [parse_obj_fields_step (f3 + 1) 0 "words" (by decide)
    (Json.arr (p.words.map word_entry_to_json)) _ hv2]
  rw [skip_ws_not_ws _ _ (by decide)]
  simp only []
  rw [if_pos trivial]
  rw [parse_obj_fields_step f3 0 "language" (by decide)
    (Json.str p.language) _ hv3]
  rw [skip_ws_sep, skip_ws_not_ws _ _ (by decide)]
  simp only []
  rw [if_neg (by decide), if_pos trivial]
  rfl

/-- `nat_repr` is non-empty. -/
theorem nat_repr_length_pos (n : Nat) : 1 ≤ (nat_repr n).length :=
  List.length_pos.mpr (nat_repr_ne_nil n)

/-- Rendered integer items are at least one character per item. -/
theorem render_arr_items_ints_length (L : Nat) (cs : List Nat) :
    cs.length ≤ (render_arr_items (cs.map Json.int) L).length := by
  induction cs with
  | nil => simp [render_arr_items]
  | cons c cs ih =>
      rw [List.map_cons, render_arr_items]
      have hre : render_json (Json.int c) L = nat_repr c := by rw [render_json]
      rw [hre]
      simp only [List.length_cons, List.length_append]
      have h1 := nat_repr_length_pos c
      omega

/-- A rendered integer array is longer than its item count plus the
brackets. -/
theorem render_arr_ints_length (L : Nat) (codes : List Nat) :
    codes.length + 2 ≤ (render_json (Json.arr (codes.map Json.int)) L).length := by
  cases codes with
  | nil =>
      rw [List.map_nil, render_json]
      simp
  | cons c cs =>
      rw [List.map_cons, render_json]
      have hre : render_json (Json.int c) (L + 1) = nat_repr c := by
        rw [render_json]
      rw [hre]
      simp only [List.length_cons, List.length_append]
      have h1 := nat_repr_length_pos c
      have h2 := render_arr_items_ints_length (L + 1) cs
      omega

/-- A rendered `WordEntry` object is longer than its code count plus nine. -/
theorem render_entry_length (L : Nat) (e : WordEntry) :
    e.codes.length + 9 ≤ (render_json (word_entry_to_json e) L).length := by
  rw [word_entry_to_json, render_json, render_obj_fields, render_obj_fields,
    render_obj_fields]
  simp only [render_field, List.length_append, List.length_cons]
  have h1 := render_arr_ints_length (L + 1) e.codes
  omega

/-- Rendered entry items cover the per-entry fuel cost. -/
theorem render_arr_items_entries_length (L : Nat) (es : List WordEntry) :
    (es.map (fun e => e.codes.length + 9)).sum
      ≤ (render_arr_items (es.map word_entry_to_json) L).length := by
  induction es with
  | nil => simp [render_arr_items]
  | cons e es ih =>
      simp only [List.map_cons]
      rw [render_arr_items]
      simp only [List.sum_cons, List.length_cons, List.length_append]
      have h1 := render_entry_length L e
      omega

/-- A rendered entry array covers the fuel cost of its entries plus the
brackets. -/
theorem render_arr_entries_length (L : Nat) (es : List WordEntry) :
    (es.map (fun e => e.codes.length + 9)).sum + 2
      ≤ (render_json (Json.arr (es.map word_entry_to_json)) L).length := by
  cases es with
  | nil =>
      simp only [List.map_nil]
      rw [render_json]
      simp
  | cons e es =>
      simp only [List.map_cons]
      rw [render_json]
      simp only [List.sum_cons, List.length_cons, List.length_append]
      have h1 := render_entry_length (L + 1) e
      have h2 := render_arr_items_entries_length (L + 1) es
      omega

/-- A rendered profile is long enough to fuel its own parse. -/
theorem render_profile_length (p : SpeakerProfile) :
    (p.words.map (fun e => e.codes.length + 9)).sum + 7
      ≤ (render_json (profile_to_json p) 0).length + 1 := by
  rw [profile_to_json, render_json, render_obj_fields, render_obj_fields,
    render_obj_fields]
  simp only [render_field, List.length_append, List.length_cons]
  have h1 := render_arr_entries_length (0 + 1) p.words
  omega

/-- `json.load` inverts `json.dump(..., indent=2)` on well-formed
profiles. -/
theorem json_load_render_profile (p : SpeakerProfile)
    (hwf : wf_profile p = true) :
    json_load ⟨render_json (profile_to_json p) 0⟩ = some (profile_to_json p) := by
  unfold json_load
  have hp := parse_value_profile p hwf
    ((render_json (profile_to_json p) 0).length + 1) []
    (by have := render_profile_length p; omega)
  rw [List.append_nil] at hp
  rw [show (⟨render_json (profile_to_json p) 0⟩ : String).length
      = (render_json (profile_to_json p) 0).length from rfl]
  rw [show (⟨render_json (profile_to_json p) 0⟩ : String).data
      = render_json (profile_to_json p) 0 from rfl]
  rw [hp]
  simp [skip_ws]

end OuteTTS

/-- C9: saving a (serializable) speaker profile with `save_speaker` and
loading that path with `load_speaker` yields a record structurally equal to
the profile, and the saved file is indented (human-readable) JSON: the
stored content is the `indent=2` rendering and opens with a brace and a
newline. -/
theorem C9_profile_persistence_round_trip (fs : OuteTTS.FileSystem)
    (p : OuteTTS.SpeakerProfile) (path : String)
    (hwf : OuteTTS.wf_profile p = true) :
    OuteTTS.load_speaker (OuteTTS.save_speaker fs p path) path
      = some (OuteTTS.profile_to_json p)
    ∧ OuteTTS.save_speaker fs p path path
      = some ⟨OuteTTS.render_json (OuteTTS.profile_to_json p) 0⟩
    ∧ (OuteTTS.render_json (OuteTTS.profile_to_json p) 0).take 2
      = [OuteTTS.lbraceChar, '\n'] := by
  refine ⟨?_, ?_, ?_⟩
  · unfold OuteTTS.load_speaker OuteTTS.save_speaker
    rw [if_pos rfl]
    exact OuteTTS.json_load_render_profile p hwf
  · unfold OuteTTS.save_speaker
    rw [if_pos rfl]
  · rw [OuteTTS.profile_to_json, OuteTTS.render_json]
    rfl

/-- C1: on each of the three interface variants, if `max_length` is `None` or
exceeds `config.max_seq_length`, `generate` raises a `ValueError` (returns an
error, never an `ok` result) before the backend model's generate is invoked,
and the model is not invoked at all: the result does not depend on the model
function. -/
theorem C1_max_length_gate (config : OuteTTS.HFModelConfig) (max_length : Option Nat)
    (h : max_length = none ∨ ∃ m, max_length = some m ∧ config.max_seq_length < m)
    (Audio : Type) (audio_start audio_end sr : Nat) (dec : List Nat → Audio)
    (prepL : String → List Nat) (prepS : String → String)
    (model₁ model₂ : List Nat → List Nat) (modelS₁ modelS₂ : String → List Nat)
    (text : String) (out : OuteTTS.ModelOutput Audio) :
    (OuteTTS.InterfaceHF.generate config audio_start audio_end dec sr prepL model₁
        text max_length ≠ Except.ok out
      ∧ OuteTTS.InterfaceHF.generate config audio_start audio_end dec sr prepL model₁
          text max_length
        = OuteTTS.InterfaceHF.generate config audio_start audio_end dec sr prepL model₂
            text max_length)
    ∧ (OuteTTS.InterfaceGGUF.generate config audio_start audio_end dec sr prepL model₁
        text max_length ≠ Except.ok out
      ∧ OuteTTS.InterfaceGGUF.generate config audio_start audio_end dec sr prepL model₁
          text max_length
        = OuteTTS.InterfaceGGUF.generate config audio_start audio_end dec sr prepL model₂
            text max_length)
    ∧ (OuteTTS.InterfaceEXL2.generate config audio_start audio_end dec sr prepS modelS₁
        text max_length ≠ Except.ok out
      ∧ OuteTTS.InterfaceEXL2.generate config audio_start audio_end dec sr prepS modelS₁
          text max_length
        = OuteTTS.InterfaceEXL2.generate config audio_start audio_end dec sr prepS modelS₂
            text max_length) := by
  obtain ⟨err, herr⟩ := OuteTTS.check_generation_max_length_fails config max_length h
  refine ⟨⟨?_, ?_⟩, ⟨?_, ?_⟩, ⟨?_, ?_⟩⟩ <;>
    simp [OuteTTS.InterfaceHF.generate, OuteTTS.InterfaceGGUF.generate,
      OuteTTS.InterfaceEXL2.generate, herr]

/-- Witness for C1 at a concrete oversized `max_length` (4097 against the
default ceiling 4096) with two distinct concrete model functions. -/
theorem C1_max_length_gate_witness :
    (OuteTTS.InterfaceHF.generate ⟨4096⟩ 1 2 (fun l => l.length) 24000
        (fun _ => [0]) (fun _ => [1, 2, 3]) "hello" (some 4097)
        ≠ Except.ok ⟨none, 24000⟩
      ∧ OuteTTS.InterfaceHF.generate ⟨4096⟩ 1 2 (fun l => l.length) 24000
          (fun _ => [0]) (fun _ => [1, 2, 3]) "hello" (some 4097)
        = OuteTTS.InterfaceHF.generate ⟨4096⟩ 1 2 (fun l => l.length) 24000
            (fun _ => [0]) (fun _ => [9, 9]) "hello" (some 4097))
    ∧ (OuteTTS.InterfaceGGUF.generate ⟨4096⟩ 1 2 (fun l => l.length) 24000
        (fun _ => [0]) (fun _ => [1, 2, 3]) "hello" (some 4097)
        ≠ Except.ok ⟨none, 24000⟩
      ∧ OuteTTS.InterfaceGGUF.generate ⟨4096⟩ 1 2 (fun l => l.length) 24000
          (fun _ => [0]) (fun _ => [1, 2, 3]) "hello" (some 4097)
        = OuteTTS.InterfaceGGUF.generate ⟨4096⟩ 1 2 (fun l => l.length) 24000
            (fun _ => [0]) (fun _ => [9, 9]) "hello" (some 4097))
    ∧ (OuteTTS.InterfaceEXL2.generate ⟨4096⟩ 1 2 (fun l => l.length) 24000
        (fun s => s) (fun _ => [1, 2, 3]) "hello" (some 4097)
        ≠ Except.ok ⟨none, 24000⟩
      ∧ OuteTTS.InterfaceEXL2.generate ⟨4096⟩ 1 2 (fun l => l.length) 24000
          (fun s => s) (fun _ => [1, 2, 3]) "hello" (some 4097)
        = OuteTTS.InterfaceEXL2.generate ⟨4096⟩ 1 2 (fun l => l.length) 24000
            (fun s => s) (fun _ => [9, 9]) "hello" (some 4097)) :=
  C1_max_length_gate ⟨4096⟩ (some 4097)
    (Or.inr ⟨4097, rfl, by decide⟩) Nat 1 2 24000 (fun l => l.length)
    (fun _ => [0]) (fun s => s) (fun _ => [1, 2, 3]) (fun _ => [9, 9])
    (fun _ => [1, 2, 3]) (fun _ => [9, 9]) "hello" ⟨none, 24000⟩

/-- C3 counterexample: the built-in catalog does have a `"male_1"` entry
under language `"ja"` (line 41 of `interface.py`), so after
`change_language("ja")` the call `load_default_speaker("male_1")` does not
raise a speaker-not-found error: it succeeds and loads the `ja_male_1`
profile. -/
theorem C3_counterexample :
    OuteTTS.change_language ["en", "ja"] "ja" = Except.ok "ja"
    ∧ OuteTTS.load_default_speaker "BASE" (fun p => p) "ja" "male_1"
      = Except.ok (OuteTTS.get_speaker_path "BASE" "ja_male_1") :=
  ⟨rfl, rfl⟩

/-- C3 (amended): after a successful `change_language("ja")`,
`load_default_speaker("male_1")` does not raise: the catalog contains
`("ja", "male_1")` and the call returns the profile loaded from the
`ja_male_1.json` path. -/
theorem C3_amended_ja_male_1 (BASE_DIR : String) (α : Type) (load_file : String → α)
    (languages : List String) (l : String)
    (h : OuteTTS.change_language languages "ja" = Except.ok l) :
    OuteTTS.load_default_speaker BASE_DIR load_file l "male_1"
      = Except.ok (load_file (OuteTTS.get_speaker_path BASE_DIR "ja_male_1")) := by
  have hl : l = "ja" := by
    simp only [OuteTTS.change_language] at h
    split at h
    · injection h with h2
      exact h2.symm
    · cases h
  subst hl
  rfl

/-- Witness for the amended C3 at a concrete language set. -/
theorem C3_amended_ja_male_1_witness :
    OuteTTS.change_language ["ja"] "ja" = Except.ok "ja"
    ∧ OuteTTS.load_default_speaker "B" (fun p => p) "ja" "male_1"
      = Except.ok (OuteTTS.get_speaker_path "B" "ja_male_1") :=
  ⟨rfl, C3_amended_ja_male_1 "B" String (fun p => p) ["ja"] "ja" rfl⟩

/-- C10: `load_default_speaker` and `change_language` lowercase and
whitespace-strip their string inputs before use: catalog lookups depend only
on the normalized forms of the language and the name, a successful
`change_language` stores exactly the normalized language, and
`change_language` depends only on the normalized form of its input. -/
theorem C10_input_normalization :
    (∀ (BASE_DIR : String) (α : Type) (f : String → α) (l n l₂ n₂ : String),
      OuteTTS.py_normalize l = OuteTTS.py_normalize l₂ →
      OuteTTS.py_normalize n = OuteTTS.py_normalize n₂ →
      OuteTTS.load_default_speaker BASE_DIR f l n
        = OuteTTS.load_default_speaker BASE_DIR f l₂ n₂)
    ∧ (∀ (languages : List String) (l r : String),
      OuteTTS.change_language languages l = Except.ok r →
      r = OuteTTS.py_normalize l)
    ∧ (∀ (languages : List String) (l l₂ : String),
      OuteTTS.py_normalize l = OuteTTS.py_normalize l₂ →
      OuteTTS.change_language languages l = OuteTTS.change_language languages l₂) := by
  refine ⟨?_, ?_, ?_⟩
  · intro BASE_DIR α f l n l₂ n₂ hl hn
    unfold OuteTTS.load_default_speaker
    rw [hl, hn]
  · intro languages l r h
    simp only [OuteTTS.change_language] at h
    split at h
    · injection h with h2
      exact h2.symm
    · cases h
  · intro languages l l₂ hl
    unfold OuteTTS.change_language
    rw [hl]

/-- Witness for C10 at concrete inputs differing only in case and
surrounding whitespace. -/
theorem C10_input_normalization_witness :
    (OuteTTS.load_default_speaker "B" (fun p => p) " JA" "MALE_1 "
      = OuteTTS.load_default_speaker "B" (fun p => p) "ja" "male_1")
    ∧ ("en" = OuteTTS.py_normalize " EN ")
    ∧ (OuteTTS.change_language ["en"] " EN " = OuteTTS.change_language ["en"] "en") :=
  ⟨C10_input_normalization.1 "B" String (fun p => p) " JA" "MALE_1 " "ja" "male_1"
      (by decide) (by decide),
   C10_input_normalization.2.1 ["en"] " EN " "en" rfl,
   C10_input_normalization.2.2 ["en"] " EN " "en" (by decide)⟩

/-- C5: if the backend stream emits exactly 125 tokens with `chunk_size` 50
and no chunk decode fails, `generate_stream` yields exactly three
`ModelOutput`s: the first two decoded from the two 50-token chunks and the
last from the remaining 25 tokens (the final buffered tokens are flushed as
a final chunk even though it is shorter than `chunk_size`). -/
theorem C5_streaming_chunk_boundaries (Audio : Type) (config : OuteTTS.HFModelConfig)
    (sr m : Nat) (g : List Nat → Option Audio) (prepare : String → List Nat)
    (model_stream : List Nat → List Nat) (text : String)
    (hm : m ≤ config.max_seq_length)
    (hlen : (model_stream (prepare text)).length = 125) :
    OuteTTS.InterfaceGGUF.generate_stream config sr (fun l => Except.ok (g l))
        prepare model_stream text (some m) 50
      = Except.ok ⟨[
          ⟨g ((model_stream (prepare text)).take 50), sr⟩,
          ⟨g (((model_stream (prepare text)).drop 50).take 50), sr⟩,
          ⟨g ((model_stream (prepare text)).drop 100), sr⟩], false⟩ := by
  unfold OuteTTS.InterfaceGGUF.generate_stream
  rw [OuteTTS.check_generation_max_length_ok config m hm]
  show Except.ok (OuteTTS.generate_stream_loop sr 50 (fun l => Except.ok (g l))
    [] (model_stream (prepare text))) = _
  set l := model_stream (prepare text) with hldef
  rw [OuteTTS.generate_stream_loop_ok Audio sr 50 (by norm_num) g l []
    (by norm_num)]
  have hd1 : (l.drop 50).length = 75 := by
    rw [List.length_drop, hlen]
  have hd2 : ((l.drop 50).drop 50).length = 25 := by
    rw [List.length_drop, hd1]
  have h1 : OuteTTS.chunk_split 50 l
      = l.take 50 :: OuteTTS.chunk_split 50 (l.drop 50) :=
    OuteTTS.chunk_split_take_drop 50 (by norm_num) l (by omega)
  have h2 : OuteTTS.chunk_split 50 (l.drop 50)
      = (l.drop 50).take 50 :: OuteTTS.chunk_split 50 ((l.drop 50).drop 50) :=
    OuteTTS.chunk_split_take_drop 50 (by norm_num) (l.drop 50) (by omega)
  have h3 : OuteTTS.chunk_split 50 ((l.drop 50).drop 50) = [(l.drop 50).drop 50] :=
    OuteTTS.chunk_split_small 50 ((l.drop 50).drop 50)
      (List.ne_nil_of_length_pos (by omega)) (by omega)
  have h4 : (l.drop 50).drop 50 = l.drop 100 := by
    rw [List.drop_drop]
  rw [List.nil_append, h1, h2, h3, h4]
  simp only [List.map_cons, List.map_nil]

/-- Witness for C5 with the backend stubbed to emit the tokens `0..124` and
an identity decoder. -/
theorem C5_streaming_chunk_boundaries_witness :
    OuteTTS.InterfaceGGUF.generate_stream ⟨4096⟩ 24000
        (fun l => Except.ok (some l)) (fun _ => []) (fun _ => List.range 125)
        "hello" (some 4096) 50
      = Except.ok ⟨[
          ⟨some ((List.range 125).take 50), 24000⟩,
          ⟨some (((List.range 125).drop 50).take 50), 24000⟩,
          ⟨some ((List.range 125).drop 100), 24000⟩], false⟩ :=
  C5_streaming_chunk_boundaries (List Nat) ⟨4096⟩ 24000 4096 (fun l => some l)
    (fun _ => []) (fun _ => List.range 125) "hello" (by decide) (by simp)

set_option maxRecDepth 40000 in
/-- C2 counterexample: with `chunk_size` 50, a 100-token stream, and a
decoder that fails exactly on the 50-token chunk, the first chunk's decode
fails, its tokens stay in `generated_tokens` (the reset sits after the
failing call inside the `try`), and at the next boundary the whole
100-token buffer — including every token of the failed chunk, e.g. token
`0` — is decoded and emitted in the later `ModelOutput`.  The tokens are
therefore re-buffered, not discarded. -/
theorem C2_counterexample :
    OuteTTS.generate_stream_loop 24000 50
        (fun l => if l.length == 50 then Except.error () else Except.ok (some l))
        [] (List.range 100)
      = ⟨[⟨some (List.range 100), 24000⟩], false⟩
    ∧ 0 ∈ (List.range 100).take 50 ∧ 0 ∈ List.range 100 := by
  refine ⟨by decide, by decide, by decide⟩

/-- C2 (amended): when a chunk decode fails the exception is caught and
streaming continues, but the failed chunk's tokens remain in the buffer and
are re-included in the next decode attempt (the next multiple-of-
`chunk_size` boundary, or the final flush): with an identity decoder, every
streamed token appears in the yielded outputs whenever no exception escapes
the final flush, so nothing is discarded. -/
theorem C2_amended_failed_chunk_rebuffered (sr c : Nat) (fail : List Nat → Bool)
    (ts buf : List Nat)
    (h : (OuteTTS.generate_stream_loop sr c
        (fun l => if fail l then Except.error () else Except.ok (some l))
        buf ts).raised = false) :
    ((OuteTTS.generate_stream_loop sr c
        (fun l => if fail l then Except.error () else Except.ok (some l))
        buf ts).outputs.map (fun o => o.audio.getD [])).flatten = buf ++ ts :=
  OuteTTS.generate_stream_loop_conserves sr c fail ts buf h

set_option maxRecDepth 40000 in
/-- Witness for the amended C2 on the counterexample's failing decoder:
the decode of the first 50-token chunk fails, yet all 100 streamed tokens
appear in the emitted outputs. -/
theorem C2_amended_failed_chunk_rebuffered_witness :
    ((OuteTTS.generate_stream_loop 24000 50
        (fun l => if l.length == 50 then Except.error () else Except.ok (some l))
        [] (List.range 100)).outputs.map (fun o => o.audio.getD [])).flatten
      = [] ++ List.range 100 :=
  C2_amended_failed_chunk_rebuffered 24000 50 (fun l => l.length == 50)
    (List.range 100) [] (by decide)

/-- C4: for a backend output whose post-prompt token sequence contains no
audio-start sentinel (no sentinel-delimited audio region),
`extract_audio_from_tokens` returns empty and `generate` completes without
raising, returning a `ModelOutput` whose audio is `None` (a warning is
logged, which the embedding does not track). -/
theorem C4_missing_audio_tokens (Audio : Type) (config : OuteTTS.HFModelConfig)
    (audio_start audio_end sr m : Nat) (dec : List Nat → Audio)
    (prepare : String → List Nat) (model : List Nat → List Nat) (text : String)
    (hm : m ≤ config.max_seq_length)
    (hns : audio_start ∉ (model (prepare text)).drop (prepare text).length) :
    OuteTTS.extract_audio_from_tokens audio_start audio_end
        ((model (prepare text)).drop (prepare text).length) = []
    ∧ OuteTTS.InterfaceHF.generate config audio_start audio_end dec sr prepare
        model text (some m) = Except.ok ⟨none, sr⟩ := by
  have hex : OuteTTS.extract_audio_from_tokens audio_start audio_end
      ((model (prepare text)).drop (prepare text).length) = [] := by
    simp [OuteTTS.extract_audio_from_tokens, hns]
  refine ⟨hex, ?_⟩
  unfold OuteTTS.InterfaceHF.generate
  rw [OuteTTS.check_generation_max_length_ok config m hm]
  show Except.ok (OuteTTS.ModelOutput.mk (OuteTTS.get_audio audio_start audio_end
    dec ((model (prepare text)).drop (prepare text).length)) sr) = _
  rw [show OuteTTS.get_audio audio_start audio_end dec
      ((model (prepare text)).drop (prepare text).length) = none from by
    simp [OuteTTS.get_audio, hex]]

/-- Witness for C4: the backend emits `[1, 2, 3]` after an empty prompt and
the audio-start sentinel is `5`, which never occurs. -/
theorem C4_missing_audio_tokens_witness :
    OuteTTS.extract_audio_from_tokens 5 6
        (([1, 2, 3] : List Nat).drop ([] : List Nat).length) = []
    ∧ OuteTTS.InterfaceHF.generate ⟨4096⟩ 5 6 (fun l => l) 24000 (fun _ => [])
        (fun _ => [1, 2, 3]) "hi" (some 10) = Except.ok ⟨none, 24000⟩ :=
  C4_missing_audio_tokens (List Nat) ⟨4096⟩ 5 6 24000 10 (fun l => l)
    (fun _ => []) (fun _ => [1, 2, 3]) "hi" (by decide) (by decide)

/-- C6: every `WordEntry` in a profile returned by `create_speaker` has a
non-empty codes list: a word whose aligned span yields zero codec tokens
receives the single placeholder token id `1`. -/
theorem C6_placeholder_invariant (encode : List Int → List Nat)
    (sample_rate : Nat) (language transcript : String)
    (words : List OuteTTS.AlignedWord) (p : OuteTTS.SpeakerProfile)
    (hp : OuteTTS.create_speaker encode sample_rate language transcript words
      = Except.ok p)
    (e : OuteTTS.WordEntry) (he : e ∈ p.words) : 1 ≤ e.codes.length := by
  unfold OuteTTS.create_speaker at hp
  split at hp
  · cases hp
  · injection hp with hp2
    subst hp2
    simp only at he
    exact List.length_pos.mpr
      (OuteTTS.build_word_entries_codes_ne_nil _ _ words 0 e he)


/-- Witness for C6 at an input whose single word has an empty aligned span
(`x1 = 0`), forcing the placeholder `[1]`. -/
theorem C6_placeholder_invariant_witness :
    1 ≤ ((⟨"hi", OuteTTS.py_round2 (1 / 75), [1]⟩ : OuteTTS.WordEntry)).codes.length :=
  C6_placeholder_invariant (fun _ => []) 75 "en" "hi"
    ([⟨"hi", [0], 0⟩] : List OuteTTS.AlignedWord)
    ⟨"hi", [⟨"hi", OuteTTS.py_round2 (1 / 75), [1]⟩], "en"⟩
    (by
      unfold OuteTTS.create_speaker
      rw [if_neg (show ¬("hi" = "") by decide)]
      norm_num [OuteTTS.build_word_entries, OuteTTS.word_end_index,
        OuteTTS.py_round, Int.toNat_zero, Int.toNat_one, Int.toNat_ofNat])
    ⟨"hi", OuteTTS.py_round2 (1 / 75), [1]⟩ (List.mem_singleton.mpr rfl)

/-- C7: every `WordEntry` produced by `create_speaker` has
`duration = round(len(codes)/75, 2)`, hence
`abs(duration - len(codes)/75) < 0.02`. -/
theorem C7_token_rate_duration_law (encode : List Int → List Nat)
    (sample_rate : Nat) (language transcript : String)
    (words : List OuteTTS.AlignedWord) (p : OuteTTS.SpeakerProfile)
    (hp : OuteTTS.create_speaker encode sample_rate language transcript words
      = Except.ok p)
    (e : OuteTTS.WordEntry) (he : e ∈ p.words) :
    e.duration = OuteTTS.py_round2 ((e.codes.length : ℚ) / 75)
    ∧ |e.duration - (e.codes.length : ℚ) / 75| < 2 / 100 := by
  have hd : e.duration = OuteTTS.py_round2 ((e.codes.length : ℚ) / 75) := by
    unfold OuteTTS.create_speaker at hp
    split at hp
    · cases hp
    · injection hp with hp2
      subst hp2
      simp only at he
      exact OuteTTS.build_word_entries_duration_eq _ _ words 0 e he
  refine ⟨hd, ?_⟩
  rw [hd]
  calc |OuteTTS.py_round2 ((e.codes.length : ℚ) / 75) - (e.codes.length : ℚ) / 75|
      ≤ 1 / 200 := OuteTTS.py_round2_abs _
    _ < 2 / 100 := by norm_num

/-- Witness for C7 at a concrete one-word profile. -/
theorem C7_token_rate_duration_law_witness :
    ((⟨"hi", OuteTTS.py_round2 (1 / 75), [1]⟩ : OuteTTS.WordEntry)).duration
      = OuteTTS.py_round2
        ((((⟨"hi", OuteTTS.py_round2 (1 / 75), [1]⟩ :
          OuteTTS.WordEntry)).codes.length : ℚ) / 75)
    ∧ |((⟨"hi", OuteTTS.py_round2 (1 / 75), [1]⟩ : OuteTTS.WordEntry)).duration
        - (((⟨"hi", OuteTTS.py_round2 (1 / 75), [1]⟩ :
          OuteTTS.WordEntry)).codes.length : ℚ) / 75| < 2 / 100 :=
  C7_token_rate_duration_law (fun _ => []) 75 "en" "hi"
    ([⟨"hi", [0], 0⟩] : List OuteTTS.AlignedWord)
    ⟨"hi", [⟨"hi", OuteTTS.py_round2 (1 / 75), [1]⟩], "en"⟩
    (by
      unfold OuteTTS.create_speaker
      rw [if_neg (show ¬("hi" = "") by decide)]
      norm_num [OuteTTS.build_word_entries, OuteTTS.word_end_index,
        OuteTTS.py_round, Int.toNat_zero, Int.toNat_one, Int.toNat_ofNat])
    ⟨"hi", OuteTTS.py_round2 (1 / 75), [1]⟩ (List.mem_singleton.mpr rfl)

/-- C8 counterexample: with the codec stubbed to encode the utterance as
`[5, 6, 7]` and a single aligned word whose boundary converts to token
index 1, `create_speaker` keeps only `[5]` for the word, so the
concatenation of all `WordEntry.codes` is `[5]`, which is not the full
encoded sequence `[5, 6, 7]`: the tokens after the final word's boundary
are dropped. -/
theorem C8_counterexample :
    OuteTTS.create_speaker (fun _ => [5, 6, 7]) 75 "en" "hi"
        ([⟨"hi", [0], 1⟩] : List OuteTTS.AlignedWord)
      = Except.ok ⟨"hi", [⟨"hi", OuteTTS.py_round2 (1 / 75), [5]⟩], "en"⟩
    ∧ (([⟨"hi", OuteTTS.py_round2 (1 / 75), [5]⟩] :
          List OuteTTS.WordEntry).map (fun e => e.codes)).flatten
      ≠ (fun _ : List Int => [5, 6, 7])
          ((([⟨"hi", [0], 1⟩] : List OuteTTS.AlignedWord).map
            (fun w => w.audio)).flatten) := by
  constructor
  · unfold OuteTTS.create_speaker
    rw [if_neg (show ¬("hi" = "") by decide)]
    norm_num [OuteTTS.build_word_entries, OuteTTS.word_end_index,
      OuteTTS.py_round, Int.toNat_zero, Int.toNat_one, Int.toNat_ofNat]
  · simp

/-- C8 (amended): the profile's entries are in the original utterance
order (one entry per aligned word, same word text, same order), and the
concatenation of all `WordEntry.codes` equals the full encoded sequence
whenever the computed word-end boundaries strictly increase from 0, stay
within the encoding, and the final boundary lands exactly on its end
(`covers_from`); otherwise trailing tokens past the last boundary are
dropped and empty spans are replaced by the placeholder `[1]`. -/
theorem C8_amended_order_and_reconstruction (encode : List Int → List Nat)
    (sample_rate : Nat) (language transcript : String)
    (words : List OuteTTS.AlignedWord) (p : OuteTTS.SpeakerProfile)
    (hp : OuteTTS.create_speaker encode sample_rate language transcript words
      = Except.ok p)
    (hcov : OuteTTS.covers_from (encode ((words.map (fun w => w.audio)).flatten))
      sample_rate 0 words = true) :
    p.words.map (fun e => e.word) = words.map (fun w => w.word)
    ∧ (p.words.map (fun e => e.codes)).flatten
      = encode ((words.map (fun w => w.audio)).flatten) := by
  unfold OuteTTS.create_speaker at hp
  split at hp
  · cases hp
  · injection hp with hp2
    subst hp2
    constructor
    · exact OuteTTS.build_word_entries_map_word _ _ words 0
    · exact (OuteTTS.build_word_entries_flatten
        (encode ((words.map (fun w => w.audio)).flatten)) sample_rate words 0
        hcov).trans (List.drop_zero _)

/-- Witness for the amended C8: two words whose boundaries cover the
3-token encoding exactly; the profile reconstructs `[5, 6, 7]`. -/
theorem C8_amended_order_and_reconstruction_witness :
    (([⟨"a", OuteTTS.py_round2 (1 / 75), [5]⟩,
        ⟨"b", OuteTTS.py_round2 (2 / 75), [6, 7]⟩] :
        List OuteTTS.WordEntry).map (fun e => e.word)
      = ([⟨"a", [0], 1⟩, ⟨"b", [2], 3⟩] : List OuteTTS.AlignedWord).map
          (fun w => w.word))
    ∧ (([⟨"a", OuteTTS.py_round2 (1 / 75), [5]⟩,
        ⟨"b", OuteTTS.py_round2 (2 / 75), [6, 7]⟩] :
        List OuteTTS.WordEntry).map (fun e => e.codes)).flatten
      = (fun _ : List Int => [5, 6, 7])
          ((([⟨"a", [0], 1⟩, ⟨"b", [2], 3⟩] : List OuteTTS.AlignedWord).map
            (fun w => w.audio)).flatten) :=
  C8_amended_order_and_reconstruction (fun _ => [5, 6, 7]) 75 "en" "hi"
    ([⟨"a", [0], 1⟩, ⟨"b", [2], 3⟩] : List OuteTTS.AlignedWord)
    ⟨"hi", [⟨"a", OuteTTS.py_round2 (1 / 75), [5]⟩,
      ⟨"b", OuteTTS.py_round2 (2 / 75), [6, 7]⟩], "en"⟩
    (by
      unfold OuteTTS.create_speaker
      rw [if_neg (show ¬("hi" = "") by decide)]
      norm_num [OuteTTS.build_word_entries, OuteTTS.word_end_index,
        OuteTTS.py_round, Int.toNat_zero, Int.toNat_one, Int.toNat_ofNat,
        (by decide : Int.toNat 3 = 3),
        (by decide : ¬(([6, 7] : List Nat) = []))])
    (by norm_num [OuteTTS.covers_from, OuteTTS.word_end_index,
      OuteTTS.py_round, Int.toNat_zero, Int.toNat_one, Int.toNat_ofNat,
      (by decide : Int.toNat 3 = 3)])

/-- Witness for C9 at a concrete one-word profile and an empty file
system. -/
theorem C9_profile_persistence_round_trip_witness :
    OuteTTS.load_speaker (OuteTTS.save_speaker (fun _ => none)
        ⟨"hi", [⟨"a", 1, [5, 6]⟩], "en"⟩ "p.json") "p.json"
      = some (OuteTTS.profile_to_json ⟨"hi", [⟨"a", 1, [5, 6]⟩], "en"⟩)
    ∧ OuteTTS.save_speaker (fun _ => none) ⟨"hi", [⟨"a", 1, [5, 6]⟩], "en"⟩
        "p.json" "p.json"
      = some ⟨OuteTTS.render_json
          (OuteTTS.profile_to_json ⟨"hi", [⟨"a", 1, [5, 6]⟩], "en"⟩) 0⟩
    ∧ (OuteTTS.render_json
        (OuteTTS.profile_to_json ⟨"hi", [⟨"a", 1, [5, 6]⟩], "en"⟩) 0).take 2
      = [OuteTTS.lbraceChar, '\n'] :=
  C9_profile_persistence_round_trip (fun _ => none)
    ⟨"hi", [⟨"a", 1, [5, 6]⟩], "en"⟩ "p.json" (by
      simp only [OuteTTS.wf_profile, OuteTTS.wf_word_entry, OuteTTS.wf_dec,
        Bool.and_eq_true, List.all_eq_true, decide_eq_true_eq, beq_iff_eq]
      refine ⟨⟨by decide, by decide⟩, ?_⟩
      intro x hx
      simp only [List.mem_singleton] at hx
      subst hx
      refine ⟨by decide, by norm_num, by norm_num⟩)
